import Mathlib

/-!
Verification of the drime rclone backend (path resolution, caching,
mutation protocol, retry classification).

The repository ships two variants of the backend, bundled in the same
source tree:

* variant `V1` — `drime.go` first half (`dirCache : map[string]*FileEntry`
  guarded by `addDirCacheEntry`, `mkdirCache : sync.Map` of `sync.Once`
  gates) together with `api.go` (`createFolder` without the 422
  reconciliation loop) and the first `object.go`;
* variant `V2` — `drime.go` second half (`pathCache : map[string]int64`,
  `entryCache : map[int64]*FileEntry`, ungated `Mkdir`) together with the
  unnamed api file (`createFolder` with the bounded 422 reconciliation
  loop) and the second `object.go`.

Both variants are embedded below.  Remote calls are modelled by a script
of responses (`Script`): every remote call consumes the next scripted
response and is recorded, paired with that response, in the emitted
`Trace`.  The pacer retry loop is modelled explicitly where its behaviour
is claim-relevant (`shouldRetry` / `pacerCall`, and the 422 short-circuit
inside `createFolder`); elsewhere a scripted response stands for the
already-paced outcome of the call.  Machine integers (`int64`, `int`) are
modelled as `Int` (they are only compared for equality or order here,
never overflowed), and page counters as `Nat`.
-/

/-! ## Go string and path helpers

`strings.Split`, `strings.Trim(s, "/")`, `strings.TrimPrefix`,
`strings.HasPrefix`, `strings.Join` and the `path` package functions used
by the backend, implemented structurally so that they evaluate inside the
kernel.  The `path.Dir`/`path.Base`/`path.Join` models are stated for the
already-clean slash-separated paths the backend passes them (the Go
originals additionally run `path.Clean`).
-/

/-- One-character `strings.Split`: split a character list at every
occurrence of `c` (Go semantics: `Split("", sep) = [""] `). -/
def chSplit (c : Char) : List Char → List (List Char)
  | [] => [[]]
  | x :: xs =>
    let r := chSplit c xs
    if x = c then [] :: r
    else
      match r with
      | h :: t => (x :: h) :: t
      | [] => [[x]]

/-- Go `strings.Split(s, string(c))`. -/
def goSplit (s : String) (c : Char) : List String :=
  (chSplit c s.toList).map String.mk

/-- Whether `p` is an initial segment of `l` (character lists). -/
def chStarts : List Char → List Char → Bool
  | [], _ => true
  | _ :: _, [] => false
  | p :: ps, x :: xs => p = x && chStarts ps xs

/-- Go `strings.HasPrefix s p`. -/
def strStarts (s p : String) : Bool :=
  chStarts p.toList s.toList

/-- Go `strings.TrimPrefix s p`: remove one leading occurrence of `p`. -/
def goTrimPfx (s p : String) : String :=
  if strStarts s p then String.mk (s.toList.drop p.toList.length) else s

/-- Go `strings.Trim(s, "/")`: remove all leading and trailing slashes. -/
def goTrimSlash (s : String) : String :=
  String.mk (((s.toList.dropWhile (· == '/')).reverse.dropWhile (· == '/')).reverse)

/-- Go `path.Base` for slash paths: the last element after dropping
trailing slashes; `"."` for the empty path. -/
def pathBase (p : String) : String :=
  if p = "" then "."
  else
    let q := String.mk ((p.toList.reverse.dropWhile (· == '/')).reverse)
    if q = "" then "/"
    else
      match (goSplit q '/').getLast? with
      | some s => s
      | none => "/"

/-- Go `path.Dir` for clean slash paths: everything before the final
slash; `"."` when there is no slash. -/
def pathDir (p : String) : String :=
  let parts := goSplit p '/'
  match parts.dropLast with
  | [] => "."
  | h :: t =>
    let cleaned := (h :: t).filter (fun s => decide (s ≠ ""))
    if cleaned = [] then (if strStarts p "/" then "/" else ".")
    else String.intercalate "/" cleaned

/-- Go `path.Join a b` for already-clean inputs. -/
def pathJoin (a b : String) : String :=
  if a = "" then b else if b = "" then a else a ++ "/" ++ b

/-! ## Association-list models of the Go maps -/

/-- Lookup in an association list (Go map read). -/
def alookup {α β : Type} [DecidableEq α] : List (α × β) → α → Option β
  | [], _ => none
  | (k, v) :: rest, a => if k = a then some v else alookup rest a

/-- Insert/overwrite in an association list (Go map assignment). -/
def ainsert {α β : Type} [DecidableEq α] (m : List (α × β)) (k : α) (v : β) :
    List (α × β) :=
  (k, v) :: m.filter (fun kv => decide (kv.1 ≠ k))

/-- Remove a key (Go `delete`). -/
def aerase {α β : Type} [DecidableEq α] (m : List (α × β)) (k : α) :
    List (α × β) :=
  m.filter (fun kv => decide (kv.1 ≠ k))

/-! ## Data model -/

/-- `FileEntry` from `api.go`: a file or folder as reported by the remote
service.  `updatedAt` stands for the `time.Time` modification stamp
(seconds). -/
structure FileEntry where
  id : Int
  name : String
  type : String
  fileSize : Int
  fileHash : Option String
  updatedAt : Int
  parentID : Option Int
  url : String
deriving DecidableEq, Repr

/-- A remote request issued by the backend (the primitive operations of
the entry client). -/
inductive RCall where
  | listCall (parent : Option Int)
  | createCall (name : String) (parent : Int)
  | moveCall (ids : List Int) (dest : Int)
  | renameCall (id : Int) (newName : String)
  | deleteCall (ids : List Int) (permanent : Bool)
deriving DecidableEq, Repr

/-- A scripted outcome for one remote call: a successful payload, or a
failure carrying the HTTP status (if a response arrived) and whether the
caller's context was already cancelled. -/
inductive RResp where
  | entries (es : List FileEntry)
  | entry (e : FileEntry)
  | done
  | fail (status : Option Nat) (ctxCancelled : Bool)
deriving DecidableEq, Repr

/-- The stream of remote outcomes an execution consumes. -/
abbrev Script := List RResp

/-- The remote calls an execution performed, paired with the consumed
outcomes. -/
abbrev Trace := List (RCall × RResp)

/-- Errors surfaced by the backend (the `fs.Error*` values it returns). -/
inductive FsError where
  | notFound
  | dirNotFound
  | isFile
  | isDir
  | notEmpty
  | cantMove
  | apiError (status : Option Nat)
deriving DecidableEq, Repr

/-- Consume one scripted response for a list request.  A response of the
wrong shape or an exhausted script is a failed call. -/
def takeListResp (c : RCall) (sc : Script) :
    Except FsError (List FileEntry) × Script × Trace :=
  match sc with
  | .entries es :: rest => (.ok es, rest, [(c, .entries es)])
  | .fail s b :: rest => (.error (.apiError s), rest, [(c, .fail s b)])
  | r :: rest => (.error (.apiError none), rest, [(c, r)])
  | [] => (.error (.apiError none), [], [])

/-- Consume one scripted response for a call returning a single entry. -/
def takeEntryResp (c : RCall) (sc : Script) :
    Except FsError FileEntry × Script × Trace :=
  match sc with
  | .entry e :: rest => (.ok e, rest, [(c, .entry e)])
  | .fail s b :: rest => (.error (.apiError s), rest, [(c, .fail s b)])
  | r :: rest => (.error (.apiError none), rest, [(c, r)])
  | [] => (.error (.apiError none), [], [])

/-- Consume one scripted response for a call returning no payload
(move/delete). -/
def takeDoneResp (c : RCall) (sc : Script) :
    Except FsError Unit × Script × Trace :=
  match sc with
  | .done :: rest => (.ok (), rest, [(c, .done)])
  | .fail s b :: rest => (.error (.apiError s), rest, [(c, .fail s b)])
  | r :: rest => (.error (.apiError none), rest, [(c, r)])
  | [] => (.error (.apiError none), [], [])

/-! ## Pacer retry classification (`shouldRetry`, identical in both
variants) -/

/-- `shouldRetry(ctx, resp, err)` from `api.go` (the returned error is
passed through unchanged in Go; only the retry decision is modelled).
`ctxErr` is whether `ctx.Err() != nil`; `resp` is the HTTP status of the
response, if one arrived; `errNonNil` is whether the attempt returned a
non-nil error. -/
def shouldRetry (ctxErr : Bool) (resp : Option Nat) (errNonNil : Bool) : Bool :=
  if errNonNil then
    if ctxErr then false else true
  else if (match resp with
           | some code => decide (code = 429) || decide (500 ≤ code)
           | none => false) then
    true
  else
    match resp with
    | some code =>
      if code = 401 ∨ code = 403 ∨ code = 404 ∨ code = 422 then false else false
    | none => false

/-- Outcome of a single paced attempt, as seen by `shouldRetry`. -/
structure Attempt where
  ctxErr : Bool
  status : Option Nat
  errNonNil : Bool
deriving DecidableEq, Repr

/-- The pacer's retry loop (`fs.Pacer.Call`): run attempts from the
script until the classifier says stop; returns the number of attempts
used and the final outcome, or `none` if the scripted attempts ran out
while the loop was still retrying. -/
def pacerCall : List Attempt → Option (Nat × Attempt)
  | [] => none
  | a :: rest =>
    if shouldRetry a.ctxErr a.status a.errNonNil then
      (pacerCall rest).map (fun p => (p.1 + 1, p.2))
    else some (1, a)

/-! ## Entry client: pagination (`listEntries`, both variants) -/

/-- The service base address (`apiBaseURL` in `api.go`). -/
def apiBaseURL : String := "https://app.drime.cloud/api/v1"

/-- One page of the paginated listing response. -/
structure ListResponse where
  data : List FileEntry
  currentPage : Nat
  lastPage : Nat
deriving DecidableEq, Repr

/-- `listEntries` from `api.go` (first variant): request pages starting
at 1, accumulate `resp.Data`, stop when `resp.CurrentPage >=
resp.LastPage`.  The server is a function from the parent filter and the
requested page to the page response; `fuel` bounds the loop (the Go loop
has no bound), and the requested pages are returned alongside the
accumulated entries. -/
def listEntriesV1 (server : Option Int → Nat → ListResponse) (parentID : Option Int) :
    Nat → Nat → Option (List Nat × List FileEntry)
  | 0, _ => none
  | fuel + 1, page =>
    let resp := server parentID page
    if resp.lastPage ≤ resp.currentPage then some ([page], resp.data)
    else
      match listEntriesV1 server parentID fuel (page + 1) with
      | none => none
      | some (ps, es) => some (page :: ps, resp.data ++ es)

/-- `listEntries` from the unnamed api file (second variant): identical
except that the stop condition compares the local `page` counter with
`resp.LastPage`. -/
def listEntriesV2 (server : Option Int → Nat → ListResponse) (parentID : Option Int) :
    Nat → Nat → Option (List Nat × List FileEntry)
  | 0, _ => none
  | fuel + 1, page =>
    let resp := server parentID page
    if resp.lastPage ≤ page then some ([page], resp.data)
    else
      match listEntriesV2 server parentID fuel (page + 1) with
      | none => none
      | some (ps, es) => some (page :: ps, resp.data ++ es)

/-! ## Entry client: download locator normalization (`download`, identical
in both variants) -/

/-- The URL normalization performed by `apiClient.download` on
`entry.URL` before issuing the GET. -/
def downloadURL (u : String) : String :=
  if strStarts u "http://" || strStarts u "https://" then u
  else
    let u1 := goTrimPfx u "/"
    if strStarts u1 "api/" then "https://app.drime.cloud/" ++ u1
    else apiBaseURL ++ "/" ++ u1

/-! ## Generic shape of one backend operation

Every Fs-level operation below returns its result, the updated Fs state,
the unconsumed remainder of the script, and the trace of remote calls it
made. -/

instance {ε α : Type} [DecidableEq ε] [DecidableEq α] :
    DecidableEq (Except ε α) := fun x y =>
  match x, y with
  | .ok a, .ok b =>
    if h : a = b then isTrue (by rw [h]) else isFalse (by simp [h])
  | .error a, .error b =>
    if h : a = b then isTrue (by rw [h]) else isFalse (by simp [h])
  | .ok _, .error _ => isFalse (by simp)
  | .error _, .ok _ => isFalse (by simp)

/-- Result of running one backend operation of a variant with state
type `σ`. -/
structure Step (σ α : Type) where
  result : Except FsError α
  state : σ
  script : Script
  trace : Trace
deriving DecidableEq, Repr

/-- The pacer loop inside `createFolder` (both variants): attempts are
consumed from the script; a 422 response is never retried (the closure
returns `false` before consulting `shouldRetry`); other outcomes are
classified by `shouldRetry`.  The error value is the HTTP status of the
terminal failed attempt, if any. -/
def createPacer (name : String) (parent : Int) :
    Script → Except (Option Nat) FileEntry × Script × Trace
  | [] => (.error none, [], [])
  | r :: rest =>
    let ev : Trace := [(RCall.createCall name parent, r)]
    match r with
    | .entry e => (.ok e, rest, ev)
    | .fail s c =>
      if s = some 422 then (.error (some 422), rest, ev)
      else if shouldRetry c s true then
        let res := createPacer name parent rest
        (res.1, res.2.1, ev ++ res.2.2)
      else (.error s, rest, ev)
    | r1 => (.error none, rest, [(RCall.createCall name parent, r1)])

namespace V2

/-- Fs state of the second variant of `drime.go`: the path cache maps a
path to an entry id, the entry cache maps an id to the last-known entry,
and `rootID` is the root marker (`NewFs` never assigns it, so it is
`none` in every session). -/
structure Fs where
  root : String
  pathCache : List (String × Int)
  entryCache : List (Int × FileEntry)
  rootID : Option Int
deriving DecidableEq, Repr

/-- An `Object` of `object.go` (second variant): the remote path plus the
cached id/size/modtime metadata. -/
structure Object where
  remote : String
  id : Int
  size : Int
  modTime : Int
deriving DecidableEq, Repr

/-- The walk loop of `findEntry` (second variant): for each non-empty
segment, list the current directory, linearly scan for the segment, cache
the found entry by id, and descend; fail `notFound` when a segment is
absent. -/
def findWalk : List String → Option Int → Fs → Script → Trace →
    Except FsError (Option Int) × Fs × Script × Trace
  | [], cur, f, sc, tr => (.ok cur, f, sc, tr)
  | part :: rest, cur, f, sc, tr =>
    if part = "" then findWalk rest cur f sc tr
    else
      match takeListResp (.listCall cur) sc with
      | (.error e, sc1, t1) => (.error e, f, sc1, tr ++ t1)
      | (.ok entries, sc1, t1) =>
        match entries.find? (fun x => x.name == part) with
        | none => (.error .notFound, f, sc1, tr ++ t1)
        | some e =>
          let f1 := { f with entryCache := ainsert f.entryCache e.id e }
          findWalk rest (some e.id) f1 sc1 (tr ++ t1)

/-- The cache-miss path of `findEntry` (second variant): split the
trimmed path, walk from `rootID`, then read the final entry from the
entry cache and record the path in the path cache. -/
def findEntryWalk (f : Fs) (sc : Script) (remotePath : String) :
    Step Fs FileEntry :=
  let parts := goSplit (goTrimSlash remotePath) '/'
  match findWalk parts f.rootID f sc [] with
  | (.error e, f1, sc1, tr) => ⟨.error e, f1, sc1, tr⟩
  | (.ok none, f1, sc1, tr) => ⟨.error .notFound, f1, sc1, tr⟩
  | (.ok (some cid), f1, sc1, tr) =>
    match alookup f1.entryCache cid with
    | none => ⟨.error .notFound, f1, sc1, tr⟩
    | some e =>
      ⟨.ok e, { f1 with pathCache := ainsert f1.pathCache remotePath e.id },
        sc1, tr⟩

/-- `findEntry` (second variant, `drime.go`): answer from the two caches
when both the path row and the entry row are present; otherwise walk the
path segment by segment. -/
def findEntry (f : Fs) (sc : Script) (remotePath : String) :
    Step Fs FileEntry :=
  match alookup f.pathCache remotePath with
  | some id =>
    match alookup f.entryCache id with
    | some e => ⟨.ok e, f, sc, []⟩
    | none => findEntryWalk f sc remotePath
  | none => findEntryWalk f sc remotePath

/-- The bounded existence-check loop run after a 422 (unnamed api file
only): up to 3 attempts, sleeping 500 ms before every attempt but the
first; each attempt re-lists the parent and scans for a same-named
folder; a listing failure skips the scan.  Returns the discovered entry
(if any), the remaining script, the trace, and the sleeps performed. -/
def reconSearch (name : String) (parent : Option Int) :
    Nat → Bool → Script → Option FileEntry × Script × Trace × List Nat
  | 0, _, sc => (none, sc, [], [])
  | fuel + 1, first, sc =>
    let sl : List Nat := if first then [] else [500]
    match takeListResp (.listCall parent) sc with
    | (.ok entries, sc1, t1) =>
      match entries.find? (fun x => x.name == name && x.type == "folder") with
      | some e => (some e, sc1, t1, sl)
      | none =>
        let r := reconSearch name parent fuel false sc1
        (r.1, r.2.1, t1 ++ r.2.2.1, sl ++ r.2.2.2)
    | (.error _, sc1, t1) =>
      let r := reconSearch name parent fuel false sc1
      (r.1, r.2.1, t1 ++ r.2.2.1, sl ++ r.2.2.2)

/-- The part of `createFolder` (unnamed api file) after a missed
existence pre-check, split out for the proofs: POST the creation through
the pacer (422 never retried); on a 422 run the bounded reconciliation
search, returning a discovered folder as success and otherwise the
original failure.  `t1` is the trace of the pre-check. -/
def createFolderPost (name : String) (parentID : Int) (t1 : Trace)
    (sc1 : Script) :
    Except (Option Nat) FileEntry × Script × Trace × List Nat :=
  let cr := createPacer name parentID sc1
  match cr.1 with
  | .ok e => (.ok e, cr.2.1, t1 ++ cr.2.2, [])
  | .error s =>
    if s = some 422 then
      let r := reconSearch name (if parentID = 0 then none else some parentID)
        3 true cr.2.1
      match r.1 with
      | some e => (.ok e, r.2.1, t1 ++ cr.2.2 ++ r.2.2.1, r.2.2.2)
      | none => (.error (some 422), r.2.1, t1 ++ cr.2.2 ++ r.2.2.1, r.2.2.2)
    else (.error s, cr.2.1, t1 ++ cr.2.2, [])

/-- `createFolder` (unnamed api file): pre-check the parent listing for a
same-named folder; if absent, continue with `createFolderPost`. -/
def createFolder (name : String) (parentID : Int) (sc : Script) :
    Except (Option Nat) FileEntry × Script × Trace × List Nat :=
  let checkParentID : Option Int := if parentID = 0 then none else some parentID
  let pre := takeListResp (.listCall checkParentID) sc
  let hit : Option FileEntry :=
    match pre.1 with
    | .ok entries => entries.find? (fun x => x.name == name && x.type == "folder")
    | .error _ => none
  match hit with
  | some e => (.ok e, pre.2.1, pre.2.2, [])
  | none => createFolderPost name parentID pre.2.2 pre.2.1

/-- `Mkdir` (second variant, `drime.go`): no per-path gate.  Return
success if the path already resolves; otherwise resolve the parent
(id 0 when the parent is the root), call `createFolder`, and on success
record the new folder in both caches.  The final component is the sleeps
performed by the reconciliation search, if any. -/
def Mkdir (f : Fs) (sc : Script) (dir : String) :
    Step Fs Unit × List Nat :=
  let dirPath := pathJoin f.root dir
  let fe := findEntry f sc dirPath
  match fe.result with
  | .ok _ => (⟨.ok (), fe.state, fe.script, fe.trace⟩, [])
  | .error _ =>
    let parentPath := pathDir dirPath
    let resolveParent : Except FsError Int × Fs × Script × Trace :=
      if parentPath ≠ "" ∧ parentPath ≠ "." then
        let pe := findEntry fe.state fe.script parentPath
        match pe.result with
        | .error e => (.error e, pe.state, pe.script, pe.trace)
        | .ok entry => (.ok entry.id, pe.state, pe.script, pe.trace)
      else (.ok 0, fe.state, fe.script, [])
    match resolveParent with
    | (.error e, f1, sc1, t1) => (⟨.error e, f1, sc1, fe.trace ++ t1⟩, [])
    | (.ok parentID, f1, sc1, t1) =>
      let name := pathBase dirPath
      let cr := createFolder name parentID sc1
      match cr.1 with
      | .error s =>
        (⟨.error (.apiError s), f1, cr.2.1, fe.trace ++ t1 ++ cr.2.2.1⟩, cr.2.2.2)
      | .ok entry =>
        let f2 := { f1 with
          entryCache := ainsert f1.entryCache entry.id entry,
          pathCache := ainsert f1.pathCache dirPath entry.id }
        (⟨.ok (), f2, cr.2.1, fe.trace ++ t1 ++ cr.2.2.1⟩, cr.2.2.2)

/-- `Object.readMetadata` (second `object.go`): resolve the object's full
path with `findEntry` and adopt the entry's metadata; a folder entry is
`ErrorIsDir`. -/
def readMetadata (f : Fs) (sc : Script) (o : Object) : Step Fs Object :=
  let remotePath := pathJoin f.root o.remote
  let fe := findEntry f sc remotePath
  match fe.result with
  | .error e => ⟨.error e, fe.state, fe.script, fe.trace⟩
  | .ok entry =>
    if entry.type = "folder" then ⟨.error .isDir, fe.state, fe.script, fe.trace⟩
    else
      ⟨.ok { o with id := entry.id, size := entry.fileSize,
                    modTime := entry.updatedAt },
        fe.state, fe.script, fe.trace⟩

/-- `Move` (second variant, `drime.go`): resolve the destination parent
(id 0 for the root), `moveEntries` with the single id, then rename when
`path.Base(dstPath)` differs from the source object's full `remote`
string, and finally build the returned object via `NewObject` /
`readMetadata`. -/
def Move (f : Fs) (sc : Script) (srcObj : Object) (remote : String) :
    Step Fs Object :=
  let dstPath := pathJoin f.root remote
  let dstParentPath := pathDir dstPath
  let resolveParent : Except FsError Int × Fs × Script × Trace :=
    if dstParentPath ≠ "" ∧ dstParentPath ≠ "." then
      let pe := findEntry f sc dstParentPath
      match pe.result with
      | .error e => (.error e, pe.state, pe.script, pe.trace)
      | .ok entry => (.ok entry.id, pe.state, pe.script, pe.trace)
    else (.ok 0, f, sc, [])
  match resolveParent with
  | (.error e, f1, sc1, t1) => ⟨.error e, f1, sc1, t1⟩
  | (.ok dstParentID, f1, sc1, t1) =>
    match takeDoneResp (.moveCall [srcObj.id] dstParentID) sc1 with
    | (.error e, sc2, t2) => ⟨.error e, f1, sc2, t1 ++ t2⟩
    | (.ok _, sc2, t2) =>
      let dstName := pathBase dstPath
      let afterRename : Except FsError Unit × Script × Trace :=
        if dstName ≠ srcObj.remote then
          match takeEntryResp (.renameCall srcObj.id dstName) sc2 with
          | (.error e, sc3, t3) => (.error e, sc3, t3)
          | (.ok _, sc3, t3) => (.ok (), sc3, t3)
        else (.ok (), sc2, [])
      match afterRename with
      | (.error e, sc3, t3) => ⟨.error e, f1, sc3, t1 ++ t2 ++ t3⟩
      | (.ok _, sc3, t3) =>
        let ro := readMetadata f1 sc3 ⟨remote, 0, 0, 0⟩
        ⟨ro.result, ro.state, ro.script, t1 ++ t2 ++ t3 ++ ro.trace⟩

end V2

namespace V1

/-- Fs state of the first variant of `drime.go`: `dirCache` maps a path
to a folder entry; `mkdirDone` records the paths whose `sync.Once` gate
in `mkdirCache` has already fired (sequential semantics of the gate). -/
structure Fs where
  root : String
  dirCache : List (String × FileEntry)
  mkdirDone : List String
deriving DecidableEq, Repr

/-- An `Object` of the first `object.go`. -/
structure Object where
  remote : String
  id : Int
  size : Int
  modTime : Int
deriving DecidableEq, Repr

/-- The synthetic entry returned for the implicit root (`FileEntry{ID: 0,
Type: "folder", Name: ""}`; the remaining fields are Go zero values). -/
def rootEntry : FileEntry := ⟨0, "", "folder", 0, none, 0, none, ""⟩

/-- `addDirCacheEntry`: cache a path → entry row, discarding any entry
that is not a folder. -/
def addDirCacheEntry (f : Fs) (absPath : String) (entry : FileEntry) : Fs :=
  if entry.type ≠ "folder" then f
  else { f with dirCache := ainsert f.dirCache absPath entry }

/-- The walk loop of `findEntry` (first variant): for segment `i`, check
the cache for the prefix path; on a hit adopt the cached id and continue;
on a miss list the parent (`nil` for the first segment), scan for the
segment, cache folders, return the entry when the prefix is the full
path.  Falling off the end of the loop is `notFound`. -/
def findWalk (remotePath : String) (allParts : List String) :
    List String → Nat → Int → Fs → Script → Trace → Step Fs FileEntry
  | [], _, _, f, sc, tr => ⟨.error .notFound, f, sc, tr⟩
  | part :: rest, i, currentID, f, sc, tr =>
    let currentPath := String.intercalate "/" (allParts.take (i + 1))
    match alookup f.dirCache currentPath with
    | some cached => findWalk remotePath allParts rest (i + 1) cached.id f sc tr
    | none =>
      let parentID : Option Int := if i = 0 then none else some currentID
      match takeListResp (.listCall parentID) sc with
      | (.error e, sc1, t1) => ⟨.error e, f, sc1, tr ++ t1⟩
      | (.ok entries, sc1, t1) =>
        match entries.find? (fun x => x.name == part) with
        | none => ⟨.error .notFound, f, sc1, tr ++ t1⟩
        | some e =>
          let f1 := addDirCacheEntry f currentPath e
          if currentPath = remotePath then ⟨.ok e, f1, sc1, tr ++ t1⟩
          else findWalk remotePath allParts rest (i + 1) e.id f1 sc1 (tr ++ t1)

/-- `findEntry` (first variant, `drime.go`): trim the path; the empty
path is the synthetic root entry; otherwise answer from `dirCache` or
walk the segments from the root. -/
def findEntry (f : Fs) (sc : Script) (remotePath0 : String) :
    Step Fs FileEntry :=
  let remotePath := goTrimSlash remotePath0
  if remotePath = "" then ⟨.ok rootEntry, f, sc, []⟩
  else
    match alookup f.dirCache remotePath with
    | some e => ⟨.ok e, f, sc, []⟩
    | none =>
      let parts := goSplit remotePath '/'
      findWalk remotePath parts parts 0 0 f sc []

/-- `createFolder` (`api.go`, first variant): pre-check the parent
listing for a same-named folder, otherwise POST the creation through the
pacer; a 422 (or any other terminal failure) is surfaced directly — there
is no reconciliation loop in this variant. -/
def createFolder (name : String) (parentID : Int) (sc : Script) :
    Except (Option Nat) FileEntry × Script × Trace :=
  let pre := takeListResp (.listCall (some parentID)) sc
  let hit : Option FileEntry :=
    match pre.1 with
    | .ok entries => entries.find? (fun x => x.name == name && x.type == "folder")
    | .error _ => none
  match hit with
  | some e => (.ok e, pre.2.1, pre.2.2)
  | none =>
    let cr := createPacer name parentID pre.2.1
    (cr.1, cr.2.1, pre.2.2 ++ cr.2.2)

/-- `Mkdir` (first variant, `drime.go`) with the body of `Fs.mkdir`
inlined at its single call site.  The `sync.Once` gate per path is
`mkdirDone` (sequential semantics: the first call for a path runs the
body, every later call skips it and returns nil).  `fuel` bounds the
parent recursion, which in Go strictly shortens the path.  The final
`Nat` counts the `createFolder` invocations issued by this call's own
body (not by the recursive parent calls, which are gated under the
parent's path). -/
def Mkdir : Nat → Fs → Script → String → Step Fs Unit × Nat
  | 0, f, sc, _ => (⟨.error (.apiError none), f, sc, []⟩, 0)
  | fuel + 1, f, sc, dir =>
    let dirPath := pathJoin f.root dir
    if dirPath = "" ∨ dirPath = "." then (⟨.ok (), f, sc, []⟩, 0)
    else if f.mkdirDone.contains dirPath then (⟨.ok (), f, sc, []⟩, 0)
    else
      let f0 := { f with mkdirDone := dirPath :: f.mkdirDone }
      let fe := findEntry f0 sc dirPath
      match fe.result with
      | .ok _ => (⟨.ok (), fe.state, fe.script, fe.trace⟩, 0)
      | .error e =>
        if e ≠ .notFound then (⟨.error e, fe.state, fe.script, fe.trace⟩, 0)
        else
          let parentPath := pathDir dirPath
          let resolveParent : Except FsError Int × Fs × Script × Trace :=
            if parentPath ≠ "" ∧ parentPath ≠ "." then
              let rm := Mkdir fuel fe.state fe.script
                (goTrimPfx parentPath (fe.state.root ++ "/"))
              match rm.1.result with
              | .error e2 => (.error e2, rm.1.state, rm.1.script, rm.1.trace)
              | .ok _ =>
                let pe := findEntry rm.1.state rm.1.script parentPath
                match pe.result with
                | .error e2 => (.error e2, pe.state, pe.script, rm.1.trace ++ pe.trace)
                | .ok entry => (.ok entry.id, pe.state, pe.script, rm.1.trace ++ pe.trace)
            else (.ok 0, fe.state, fe.script, [])
          match resolveParent with
          | (.error e2, f1, sc1, t1) => (⟨.error e2, f1, sc1, fe.trace ++ t1⟩, 0)
          | (.ok parentID, f1, sc1, t1) =>
            let cr := createFolder (pathBase dirPath) parentID sc1
            match cr.1 with
            | .ok entry =>
              (⟨.ok (), { f1 with dirCache := ainsert f1.dirCache dirPath entry },
                 cr.2.1, fe.trace ++ t1 ++ cr.2.2⟩, 1)
            | .error s =>
              let fe2 := findEntry f1 cr.2.1 dirPath
              match fe2.result with
              | .ok entry =>
                (⟨.ok (), addDirCacheEntry fe2.state dirPath entry, fe2.script,
                   fe.trace ++ t1 ++ cr.2.2 ++ fe2.trace⟩, 1)
              | .error _ =>
                (⟨.error (.apiError s), fe2.state, fe2.script,
                   fe.trace ++ t1 ++ cr.2.2 ++ fe2.trace⟩, 1)

/-- `List` (first variant, `drime.go`): resolve the directory (any
resolution failure is `ErrorDirNotFound`, a file is `ErrorIsFile`), list
its children, and cache every folder child under its full path. -/
def ListDir (f : Fs) (sc : Script) (dir : String) :
    Step Fs (List FileEntry) :=
  let dirPath := pathJoin f.root dir
  let resolveParent : Except FsError (Option Int) × Fs × Script × Trace :=
    if dirPath ≠ "" then
      let fe := findEntry f sc dirPath
      match fe.result with
      | .error _ => (.error .dirNotFound, fe.state, fe.script, fe.trace)
      | .ok entry =>
        if entry.type ≠ "folder" then (.error .isFile, fe.state, fe.script, fe.trace)
        else (.ok (some entry.id), fe.state, fe.script, fe.trace)
    else (.ok none, f, sc, [])
  match resolveParent with
  | (.error e, f1, sc1, t1) => ⟨.error e, f1, sc1, t1⟩
  | (.ok parentID, f1, sc1, t1) =>
    match takeListResp (.listCall parentID) sc1 with
    | (.error e, sc2, t2) => ⟨.error e, f1, sc2, t1 ++ t2⟩
    | (.ok fileEntries, sc2, t2) =>
      let f2 := fileEntries.foldl (fun acc entry =>
        if entry.type == "folder" then
          addDirCacheEntry acc (pathJoin acc.root (pathJoin dir entry.name)) entry
        else acc) f1
      ⟨.ok fileEntries, f2, sc2, t1 ++ t2⟩

/-- `Rmdir` (first variant): resolve the folder, refuse a non-folder,
refuse a non-empty listing, delete permanently and drop the cache row. -/
def Rmdir (f : Fs) (sc : Script) (dir : String) : Step Fs Unit :=
  let dirPath := pathJoin f.root dir
  let fe := findEntry f sc dirPath
  match fe.result with
  | .error e => ⟨.error e, fe.state, fe.script, fe.trace⟩
  | .ok entry =>
    if entry.type ≠ "folder" then ⟨.error .isFile, fe.state, fe.script, fe.trace⟩
    else
      match takeListResp (.listCall (some entry.id)) fe.script with
      | (.error e, sc1, t1) => ⟨.error e, fe.state, sc1, fe.trace ++ t1⟩
      | (.ok entries, sc1, t1) =>
        if 0 < entries.length then ⟨.error .notEmpty, fe.state, sc1, fe.trace ++ t1⟩
        else
          match takeDoneResp (.deleteCall [entry.id] true) sc1 with
          | (.error e, sc2, t2) => ⟨.error e, fe.state, sc2, fe.trace ++ t1 ++ t2⟩
          | (.ok _, sc2, t2) =>
            ⟨.ok (), { fe.state with dirCache := aerase fe.state.dirCache dirPath },
              sc2, fe.trace ++ t1 ++ t2⟩

/-- `Object.readMetadata` (first `object.go`): resolve the parent
directory, list it, and scan for a non-folder child with the object's
basename. -/
def readMetadata (f : Fs) (sc : Script) (o : Object) : Step Fs Object :=
  let remotePath := pathJoin f.root o.remote
  let dirPath := pathDir remotePath
  let fileName := pathBase remotePath
  let resolveParent : Except FsError (Option Int) × Fs × Script × Trace :=
    if dirPath ≠ "" ∧ dirPath ≠ "." then
      let pe := findEntry f sc dirPath
      match pe.result with
      | .error e => (.error e, pe.state, pe.script, pe.trace)
      | .ok entry => (.ok (some entry.id), pe.state, pe.script, pe.trace)
    else (.ok none, f, sc, [])
  match resolveParent with
  | (.error e, f1, sc1, t1) => ⟨.error e, f1, sc1, t1⟩
  | (.ok parentID, f1, sc1, t1) =>
    match takeListResp (.listCall parentID) sc1 with
    | (.error e, sc2, t2) => ⟨.error e, f1, sc2, t1 ++ t2⟩
    | (.ok entries, sc2, t2) =>
      match entries.find? (fun x => x.name == fileName && !(x.type == "folder")) with
      | some entry =>
        ⟨.ok { o with id := entry.id, size := entry.fileSize,
                      modTime := entry.updatedAt }, f1, sc2, t1 ++ t2⟩
      | none => ⟨.error .notFound, f1, sc2, t1 ++ t2⟩

/-- `Move` (first variant, `drime.go`): as in the second variant, except
that the rename is issued when `path.Base(dstPath)` differs from
`path.Base(srcObj.remote)`, and the returned object is rebuilt with the
first variant's `readMetadata`. -/
def Move (f : Fs) (sc : Script) (srcObj : Object) (remote : String) :
    Step Fs Object :=
  let dstPath := pathJoin f.root remote
  let dstParentPath := pathDir dstPath
  let resolveParent : Except FsError Int × Fs × Script × Trace :=
    if dstParentPath ≠ "" ∧ dstParentPath ≠ "." then
      let pe := findEntry f sc dstParentPath
      match pe.result with
      | .error e => (.error e, pe.state, pe.script, pe.trace)
      | .ok entry => (.ok entry.id, pe.state, pe.script, pe.trace)
    else (.ok 0, f, sc, [])
  match resolveParent with
  | (.error e, f1, sc1, t1) => ⟨.error e, f1, sc1, t1⟩
  | (.ok dstParentID, f1, sc1, t1) =>
    match takeDoneResp (.moveCall [srcObj.id] dstParentID) sc1 with
    | (.error e, sc2, t2) => ⟨.error e, f1, sc2, t1 ++ t2⟩
    | (.ok _, sc2, t2) =>
      let dstName := pathBase dstPath
      let afterRename : Except FsError Unit × Script × Trace :=
        if dstName ≠ pathBase srcObj.remote then
          match takeEntryResp (.renameCall srcObj.id dstName) sc2 with
          | (.error e, sc3, t3) => (.error e, sc3, t3)
          | (.ok _, sc3, t3) => (.ok (), sc3, t3)
        else (.ok (), sc2, [])
      match afterRename with
      | (.error e, sc3, t3) => ⟨.error e, f1, sc3, t1 ++ t2 ++ t3⟩
      | (.ok _, sc3, t3) =>
        let ro := readMetadata f1 sc3 ⟨remote, 0, 0, 0⟩
        ⟨ro.result, ro.state, ro.script, t1 ++ t2 ++ t3 ++ ro.trace⟩

end V1

/-! ## Concurrency models

The per-path `sync.Once` gate of the first variant's `Mkdir` is
abstracted as a trace of gate events: executing the body for a path is
legal only while no execution for that path has happened, exactly the
guarantee `mkdirCache.LoadOrStore` + `Once.Do` provide.

For the second variant, which has no gate, concurrent callers are two
sequential `Mkdir` executions whose remote calls are interleaved by a
schedule; an interleaving is realizable when the merged trace is
consistent with the remote service, whose folder semantics are modelled
from the spec (listing returns the current children; creating a folder
fails with 422 exactly when a same-named folder already exists there,
and otherwise appends a fresh folder entry). -/

/-- One caller's interaction with a per-path `sync.Once` gate. -/
inductive GateEvent where
  | execBody (caller : Nat) (path : String)
  | skipBody (caller : Nat) (path : String)
deriving DecidableEq, Repr

/-- Validity of a gate trace given the set of paths whose gate has
already fired: a body execution is legal only for an unfired path and
fires it; a skip is legal only for a fired path. -/
def gateValid : List String → List GateEvent → Bool
  | _, [] => true
  | fired, .execBody _ p :: rest => !(fired.contains p) && gateValid (p :: fired) rest
  | fired, .skipBody _ p :: rest => fired.contains p && gateValid fired rest

/-- How many body executions a gate trace performs for path `p`. -/
def execCount (p : String) (evs : List GateEvent) : Nat :=
  (evs.filter (fun ev => match ev with
    | .execBody _ q => q == p
    | _ => false)).length

/-- Interleave two traces according to a schedule (`true` takes from the
first trace). -/
def mergeBy : List Bool → Trace → Trace → Trace
  | [], xs, ys => xs ++ ys
  | true :: s, x :: xs, ys => x :: mergeBy s xs ys
  | true :: s, [], ys => mergeBy s [] ys
  | false :: s, xs, y :: ys => y :: mergeBy s xs ys
  | false :: s, xs, [] => mergeBy s xs []

/-- Children of a parent in the modelled remote state (`none` is the
account root). -/
def childrenOf (st : List FileEntry) (parent : Option Int) : List FileEntry :=
  st.filter (fun e => e.parentID == parent)

/-- A `parent_id` request field of 0 denotes the account root. -/
def parentRef (parent : Int) : Option Int :=
  if parent = 0 then none else some parent

/-- First same-named folder under a parent in the modelled remote state. -/
def folderNamed (st : List FileEntry) (parent : Option Int) (name : String) :
    Option FileEntry :=
  (childrenOf st parent).find? (fun x => x.name == name && x.type == "folder")

/-- Modelled from the spec (§6 remote protocol): whether a trace of
remote calls and responses is consistent with the remote folder service,
starting from state `st`.  Listing a parent returns exactly its current
children; a folder creation succeeds with a fresh folder entry when no
same-named folder exists under the parent, and fails with status 422
when one does.  Calls other than list/create are not constrained here. -/
def serverCheck : List FileEntry → Trace → Bool
  | _, [] => true
  | st, (RCall.listCall parent, RResp.entries es) :: rest =>
    decide (es = childrenOf st parent) && serverCheck st rest
  | st, (RCall.createCall name parent, RResp.entry e) :: rest =>
    decide (folderNamed st (parentRef parent) name = none)
      && (e.name == name) && (e.type == "folder")
      && decide (e.parentID = parentRef parent)
      && decide (st.find? (fun x => x.id == e.id) = none)
      && serverCheck (st ++ [e]) rest
  | st, (RCall.createCall name parent, RResp.fail s _) :: rest =>
    (s == some 422) && decide (folderNamed st (parentRef parent) name ≠ none)
      && serverCheck st rest
  | _, _ => false

/-- The folder-creation requests for `(name, parent)` in a trace. -/
def createCallCount (tr : Trace) (name : String) (parent : Int) : Nat :=
  (tr.filter (fun ev => match ev.1 with
    | .createCall n p => n == name && p == parent
    | _ => false)).length

/-- The rename requests in a trace. -/
def renameCallCount (tr : Trace) : Nat :=
  (tr.filter (fun ev => match ev.1 with
    | .renameCall _ _ => true
    | _ => false)).length

/-- The list requests in a trace. -/
def listCallCount (tr : Trace) : Nat :=
  (tr.filter (fun ev => match ev.1 with
    | .listCall _ => true
    | _ => false)).length

/-! ## Reachable cache states of the first variant (for the dirCache
invariant)

`Move`/`DirMove`/`Purge` touch `dirCache` only through the `findEntry`
calls they make, so the operations below cover every write to
`dirCache`. -/

/-- Whether every single-entry response in a script is a folder entry.
The only single-entry responses the operations below consume are
`createFolder` responses, and the remote folder-creation endpoint returns
the created folder (spec §6). -/
def scriptFoldersOk (sc : Script) : Bool :=
  sc.all (fun r => match r with
    | .entry e => e.type == "folder"
    | _ => true)

/-- Fs states of the first variant reachable from a fresh session by the
operations that write `dirCache`. -/
inductive ReachV1 : V1.Fs → Prop where
  | init (root : String) : ReachV1 ⟨root, [], []⟩
  | stepFind (f : V1.Fs) (sc : Script) (p : String) :
      ReachV1 f → ReachV1 (V1.findEntry f sc p).state
  | stepList (f : V1.Fs) (sc : Script) (dir : String) :
      ReachV1 f → ReachV1 (V1.ListDir f sc dir).state
  | stepMkdir (fuel : Nat) (f : V1.Fs) (sc : Script) (dir : String) :
      ReachV1 f → scriptFoldersOk sc = true →
      ReachV1 (V1.Mkdir fuel f sc dir).1.state
  | stepRmdir (f : V1.Fs) (sc : Script) (dir : String) :
      ReachV1 f → ReachV1 (V1.Rmdir f sc dir).state

/-! ## Concrete scenarios used by the claims -/

/-- A file entry `A/x.txt` with id 7, as first resolved (parent `A`). -/
def entryX : FileEntry := ⟨7, "x.txt", "file", 5, none, 11, some 1, ""⟩

/-- The folder `B` with id 2 at the account root. -/
def entryB : FileEntry := ⟨2, "B", "folder", 0, none, 12, none, ""⟩

/-- The same file after the move, now a child of `B`. -/
def entryXMoved : FileEntry := ⟨7, "x.txt", "file", 5, none, 11, some 2, ""⟩

/-- A second-variant session whose caches hold the pre-move resolution of
`A/x.txt` (as `findEntry` leaves them after resolving that path). -/
def staleFs : V2.Fs := ⟨"", [("A/x.txt", 7)], [(7, entryX)], none⟩

/-- The source object for the move, as rclone hands it to `Move`. -/
def srcObjX : V2.Object := ⟨"A/x.txt", 7, 5, 11⟩

/-- Remote outcomes for `Move(A/x.txt → B/x.txt)`: resolve parent `B`,
move ok, rename ok, then `NewObject`'s fresh resolution of `B/x.txt`. -/
def moveScript : Script :=
  [.entries [entryB], .done, .entry entryXMoved, .entries [entryB],
   .entries [entryXMoved]]

/-- The folder `B` with id 4 at the account root (rename-condition
scenario). -/
def entryB4 : FileEntry := ⟨4, "B", "folder", 0, none, 21, none, ""⟩

/-- `A/y.txt` (id 9) after its move under `B`. -/
def entryYMoved : FileEntry := ⟨9, "y.txt", "file", 3, none, 20, some 4, ""⟩

/-- The source object `A/y.txt` for the rename-condition scenario. -/
def srcObjY2 : V2.Object := ⟨"A/y.txt", 9, 3, 20⟩

/-- The same source object in the first variant. -/
def srcObjY1 : V1.Object := ⟨"A/y.txt", 9, 3, 20⟩

/-- Remote outcomes for the second variant's `Move(A/y.txt → B/y.txt)`:
parent lookup, move, the (spurious) rename, then the fresh resolution. -/
def moveScriptY2 : Script :=
  [.entries [entryB4], .done, .entry entryYMoved, .entries [entryB4],
   .entries [entryYMoved]]

/-- Remote outcomes for the first variant's `Move(A/y.txt → B/y.txt)`:
parent lookup, move, then `readMetadata`'s listing of `B` (no rename). -/
def moveScriptY1 : Script :=
  [.entries [entryB4], .done, .entries [entryYMoved]]

/-- The folder `A` (id 101) created at the root in the Mkdir races. -/
def entryA : FileEntry := ⟨101, "A", "folder", 0, none, 0, none, ""⟩

/-- A fresh second-variant session. -/
def freshFs2 : V2.Fs := ⟨"", [], [], none⟩

/-- Remote outcomes seen by the first concurrent `Mkdir("A")` caller:
both existence checks find nothing, the creation succeeds. -/
def mkScript1 : Script := [.entries [], .entries [], .entry entryA]

/-- Remote outcomes seen by the second concurrent caller: both existence
checks find nothing (they run before the first caller's create lands),
the creation fails 422, the reconciliation listing finds the folder. -/
def mkScript2 : Script :=
  [.entries [], .entries [], .fail (some 422) false, .entries [entryA]]

/-- The schedule realizing that race: both callers' existence checks
first, then caller 1's create, then caller 2's create and
reconciliation. -/
def mkSched : List Bool := [true, true, false, false, true, false, false]

/-- Remote outcomes for a successful solo `Mkdir("A")` in the first
variant (existence check misses, pre-create listing misses, create ok). -/
def mkScriptV1 : Script := [.entries [], .entries [], .entry entryA]

/-- A first-variant session whose `Mkdir` gate for path `A` has already
fired. -/
def gatedFs1 : V1.Fs := ⟨"", [], ["A"]⟩

/-! ## Pagination test server (3 pages of sizes 50/50/7) -/

/-- `n` distinct file entries with ids starting at `base`. -/
def mkEntries (n : Nat) (base : Int) : List FileEntry :=
  (List.range n).map (fun i => ⟨base + i, "f", "file", 0, none, 0, none, ""⟩)

/-- A paginated server: 107 entries split 50/50/7 over 3 pages,
`last_page = 3`, reporting the requested page as `current_page`. -/
def server107 (_ : Option Int) (p : Nat) : ListResponse :=
  if p = 1 then ⟨mkEntries 50 0, p, 3⟩
  else if p = 2 then ⟨mkEntries 50 50, p, 3⟩
  else ⟨mkEntries 7 100, p, 3⟩

/-- The accumulated 107-entry listing. -/
def entries107 : List FileEntry :=
  ((List.range' 1 3).map (fun p => (server107 none p).data)).flatten

/-- Whether every event in a trace is a list request. -/
def onlyListCalls (tr : Trace) : Bool :=
  tr.all (fun ev => match ev.1 with
    | .listCall _ => true
    | _ => false)

/-! ## Helper lemmas -/

/-- Counting create calls distributes over trace concatenation. -/
theorem createCallCount_append (a b : Trace) (name : String) (pid : Int) :
    createCallCount (a ++ b) name pid =
      createCallCount a name pid + createCallCount b name pid := by
  simp [createCallCount, List.filter_append]

/-- A single list event contains no create call. -/
theorem createCallCount_listEvent (p : Option Int) (r : RResp) (name : String)
    (pid : Int) :
    createCallCount [(RCall.listCall p, r)] name pid = 0 := rfl

/-- The pacer loop for a creation emits a creation request as its first
event whenever at least one attempt is scripted. -/
theorem createPacer_first_call (name : String) (pid : Int) (r : RResp)
    (rest : Script) :
    1 ≤ createCallCount (createPacer name pid (r :: rest)).2.2 name pid := by
  cases r with
  | entries es => simp [createPacer, createCallCount]
  | entry e => simp [createPacer, createCallCount]
  | done => simp [createPacer, createCallCount]
  | fail s c =>
    by_cases h422 : s = some 422
    · subst h422
      simp [createPacer, createCallCount]
    · by_cases hsr : shouldRetry c s true = true
      · simp only [createPacer, h422, if_false, hsr, if_true]
        rw [createCallCount_append]
        have h1 : createCallCount [(RCall.createCall name pid, RResp.fail s c)]
            name pid = 1 := by simp [createCallCount]
        omega
      · simp only [createPacer]
        rw [if_neg h422, if_neg hsr]
        simp [createCallCount]

/-! ## Claims -/

/-- C6: the retry classifier returns no-retry for a transport error with
a cancelled context, retry for every other transport error, retry for
429 and every status ≥ 500, no-retry for 401/403/404/422 and for
successful statuses; a 503 followed by a success gives exactly one
retried attempt (2 attempts total) with final success, a 404 fails on
the first attempt, and a cancelled context with a transport error stops
after the first attempt. -/
theorem C6_shouldRetry_classification :
    (∀ st : Option Nat, shouldRetry true st true = false) ∧
    (∀ st : Option Nat, shouldRetry false st true = true) ∧
    (shouldRetry false (some 429) false = true) ∧
    (∀ s : Nat, 500 ≤ s → shouldRetry false (some s) false = true) ∧
    (shouldRetry false (some 401) false = false ∧
     shouldRetry false (some 403) false = false ∧
     shouldRetry false (some 404) false = false ∧
     shouldRetry false (some 422) false = false) ∧
    (∀ s : Nat, 200 ≤ s → s ≤ 299 → shouldRetry false (some s) false = false) ∧
    (pacerCall [⟨false, some 503, false⟩, ⟨false, some 200, false⟩] =
      some (2, ⟨false, some 200, false⟩)) ∧
    (pacerCall [⟨false, some 404, false⟩] = some (1, ⟨false, some 404, false⟩)) ∧
    (∀ rest : List Attempt, pacerCall (⟨true, some 503, true⟩ :: rest) =
      some (1, ⟨true, some 503, true⟩)) := by
  refine ⟨fun st => rfl, fun st => rfl, by decide, ?_, by decide, ?_,
    by decide, by decide, fun rest => rfl⟩
  · intro s hs
    have hb : decide (500 ≤ s) = true := by simpa using hs
    simp [shouldRetry, hb]
  · intro s h1 h2
    have ha : decide (s = 429) = false := by simp; omega
    have hb : decide (500 ≤ s) = false := by simp; omega
    simp [shouldRetry, ha, hb]

/-- Witness for C6 at concrete inputs. -/
theorem C6_shouldRetry_classification_witness :
    shouldRetry true none true = false ∧ shouldRetry false none true = true ∧
    shouldRetry false (some 503) false = true ∧
    shouldRetry false (some 200) false = false ∧
    pacerCall [⟨true, some 503, true⟩] = some (1, ⟨true, some 503, true⟩) := by
  obtain ⟨h1, h2, -, h4, -, h6, -, -, h9⟩ := C6_shouldRetry_classification
  exact ⟨h1 none, h2 none, h4 503 (by norm_num),
    h6 200 (by norm_num) (by norm_num), h9 []⟩

/-- C8: the download locator normalization: locators with an
`http://`/`https://` scheme are used unmodified; otherwise one leading
slash is stripped, an `api/`-prefixed locator is joined to the service
host, and any other locator is appended to the API base URL; in
particular `api/v1/file-entries/42` resolves to
`https://app.drime.cloud/api/v1/file-entries/42`. -/
theorem C8_download_locator_normalization :
    (∀ u : String, strStarts u "http://" = true ∨ strStarts u "https://" = true →
      downloadURL u = u) ∧
    (∀ u : String, strStarts u "http://" = false → strStarts u "https://" = false →
      (strStarts (goTrimPfx u "/") "api/" = true →
        downloadURL u = "https://app.drime.cloud/" ++ goTrimPfx u "/") ∧
      (strStarts (goTrimPfx u "/") "api/" = false →
        downloadURL u = apiBaseURL ++ "/" ++ goTrimPfx u "/")) ∧
    downloadURL "api/v1/file-entries/42" =
      "https://app.drime.cloud/api/v1/file-entries/42" := by
  refine ⟨?_, ?_, by decide⟩
  · intro u h
    rcases h with h | h <;> simp [downloadURL, h]
  · intro u h1 h2
    exact ⟨fun h3 => by simp [downloadURL, h1, h2, h3],
           fun h3 => by simp [downloadURL, h1, h2, h3]⟩

/-- Witness for C8 at concrete locators. -/
theorem C8_download_locator_normalization_witness :
    downloadURL "https://cdn.example/file" = "https://cdn.example/file" ∧
    downloadURL "api/v1/file-entries/42" =
      "https://app.drime.cloud/api/v1/file-entries/42" ∧
    downloadURL "thumbs/42" = apiBaseURL ++ "/" ++ goTrimPfx "thumbs/42" "/" := by
  obtain ⟨h1, h2, h3⟩ := C8_download_locator_normalization
  exact ⟨h1 _ (Or.inr (by decide)), h3,
    (h2 "thumbs/42" (by decide) (by decide)).2 (by decide)⟩

/-- C1: after a successful `Move(A/x.txt → B/x.txt)` in the pathCache
variant, the pre-move rows for `A/x.txt` are still in both caches, and
resolving `A/x.txt` afterwards returns a successful entry from the stale
cache rows with zero remote calls — not `NotFound` as the claim
requires. -/
theorem C1_move_leaves_stale_cache :
    (V2.Move staleFs moveScript srcObjX "B/x.txt").result =
      .ok ⟨"B/x.txt", 7, 5, 11⟩ ∧
    alookup (V2.Move staleFs moveScript srcObjX "B/x.txt").state.pathCache
      "A/x.txt" = some 7 ∧
    alookup (V2.Move staleFs moveScript srcObjX "B/x.txt").state.entryCache 7 =
      some entryXMoved ∧
    (V2.findEntry (V2.Move staleFs moveScript srcObjX "B/x.txt").state []
      "A/x.txt").result = .ok entryXMoved ∧
    (V2.findEntry (V2.Move staleFs moveScript srcObjX "B/x.txt").state []
      "A/x.txt").trace = [] := by
  decide

/-- C3 counterexample: in the pathCache variant, resolving the empty
path in a fresh session fails `NotFound` (it does not return a synthetic
root folder entry), though indeed without any remote call. -/
theorem C3_empty_path_counterexample :
    V2.findEntry freshFs2 [] "" = ⟨.error .notFound, freshFs2, [], []⟩ := by
  decide

/-- C3 amended: in the dirCache variant, a path that is empty after
trimming separators resolves, in every session state, to the synthetic
folder entry with the root sentinel id without any remote call; in the
pathCache variant the same path (uncached, with the session's never-set
`rootID`) fails `NotFound`, also without any remote call. -/
theorem C3_empty_path_amended :
    (∀ (f : V1.Fs) (sc : Script) (p : String), goTrimSlash p = "" →
      V1.findEntry f sc p = ⟨.ok V1.rootEntry, f, sc, []⟩) ∧
    (∀ (f : V2.Fs) (sc : Script) (p : String), goTrimSlash p = "" →
      f.rootID = none → alookup f.pathCache p = none →
      V2.findEntry f sc p = ⟨.error .notFound, f, sc, []⟩) := by
  constructor
  · intro f sc p h
    simp [V1.findEntry, h]
  · intro f sc p h hr hc
    have hp : goSplit (goTrimSlash p) '/' = [""] := by rw [h]; decide
    simp [V2.findEntry, hc, V2.findEntryWalk, hp, V2.findWalk, hr]

/-- Witness for C3's amended statement at concrete inputs. -/
theorem C3_empty_path_amended_witness :
    V1.findEntry ⟨"", [], []⟩ [] "/" = ⟨.ok V1.rootEntry, ⟨"", [], []⟩, [], []⟩ ∧
    V2.findEntry ⟨"x", [], [], none⟩ [] "/" =
      ⟨.error .notFound, ⟨"x", [], [], none⟩, [], []⟩ := by
  obtain ⟨h1, h2⟩ := C3_empty_path_amended
  exact ⟨h1 _ _ _ (by decide), h2 _ _ _ (by decide) rfl (by decide)⟩

/-- C4: in the pathCache variant, `Move` compares the destination
basename with the source's full remote path, so moving `A/y.txt` to
`B/y.txt` (equal basenames) still issues a rename request; the dirCache
variant compares basenames and issues none at the same input. -/
theorem C4_rename_condition_bug :
    pathBase (pathJoin "" "B/y.txt") = pathBase srcObjY2.remote ∧
    (V2.Move freshFs2 moveScriptY2 srcObjY2 "B/y.txt").result =
      .ok ⟨"B/y.txt", 9, 3, 20⟩ ∧
    renameCallCount (V2.Move freshFs2 moveScriptY2 srcObjY2 "B/y.txt").trace
      = 1 ∧
    (V1.Move ⟨"", [], []⟩ moveScriptY1 srcObjY1 "B/y.txt").result =
      .ok ⟨"B/y.txt", 9, 3, 20⟩ ∧
    renameCallCount (V1.Move ⟨"", [], []⟩ moveScriptY1 srcObjY1 "B/y.txt").trace
      = 0 := by
  decide

/-- C2 counterexample: in the pathCache variant, two `Mkdir("A")`
callers whose remote calls interleave under schedule `mkSched` — an
interleaving consistent with the modelled remote service — both return
success while issuing two folder-creation requests for the same path. -/
theorem C2_counterexample_two_creates :
    (V2.Mkdir freshFs2 mkScript1 "A").1.result = .ok () ∧
    (V2.Mkdir freshFs2 mkScript2 "A").1.result = .ok () ∧
    serverCheck [] (mergeBy mkSched (V2.Mkdir freshFs2 mkScript1 "A").1.trace
      (V2.Mkdir freshFs2 mkScript2 "A").1.trace) = true ∧
    createCallCount (mergeBy mkSched (V2.Mkdir freshFs2 mkScript1 "A").1.trace
      (V2.Mkdir freshFs2 mkScript2 "A").1.trace) "A" 0 = 2 := by
  decide

/-- C9: both variants of `createFolder` first list the parent; when the
listing succeeds and contains a same-named folder, that entry is
returned as success with no creation request issued; when no same-named
folder is found, a creation request is issued. -/
theorem C9_createFolder_existence_precheck (name : String) (pid : Int)
    (es : List FileEntry) (rest : Script) :
    (∀ e, es.find? (fun x => x.name == name && x.type == "folder") = some e →
      (V1.createFolder name pid (.entries es :: rest)).1 = .ok e ∧
      createCallCount (V1.createFolder name pid (.entries es :: rest)).2.2
        name pid = 0 ∧
      (V2.createFolder name pid (.entries es :: rest)).1 = .ok e ∧
      createCallCount (V2.createFolder name pid (.entries es :: rest)).2.2.1
        name pid = 0) ∧
    (es.find? (fun x => x.name == name && x.type == "folder") = none →
      ∀ (r : RResp) (rest2 : Script), rest = r :: rest2 →
        1 ≤ createCallCount
          (V1.createFolder name pid (.entries es :: rest)).2.2 name pid ∧
        1 ≤ createCallCount
          (V2.createFolder name pid (.entries es :: rest)).2.2.1 name pid) := by
  constructor
  · intro e he
    refine ⟨?_, ?_, ?_, ?_⟩ <;>
      simp [V1.createFolder, V2.createFolder, takeListResp, he, createCallCount]
  · intro he r rest2 hrest
    subst hrest
    have h1 := createPacer_first_call name pid r rest2
    constructor
    · simp only [V1.createFolder, takeListResp, he]
      rw [createCallCount_append, createCallCount_listEvent]
      omega
    · simp only [V2.createFolder, V2.createFolderPost, takeListResp, he]
      rcases hcr : (createPacer name pid (r :: rest2)).1 with s | e
      · by_cases h422 : s = some 422
        · subst h422
          simp only [hcr]
          rcases hrec : (V2.reconSearch name (if pid = 0 then none else some pid)
              3 true (createPacer name pid (r :: rest2)).2.1).1 with _ | e2 <;>
            simp only [hrec, eq_self_iff_true, if_true] <;>
            rw [createCallCount_append, createCallCount_append,
              createCallCount_listEvent] <;>
            omega
        · simp only [hcr, if_neg h422]
          rw [createCallCount_append, createCallCount_listEvent]
          omega
      · simp only [hcr]
        rw [createCallCount_append, createCallCount_listEvent]
        omega

/-- Witness for C9 at concrete inputs: an existing folder is returned
without a creation request; a missing folder leads to a creation
request. -/
theorem C9_createFolder_existence_precheck_witness :
    (V1.createFolder "A" 0 [.entries [entryA], .done]).1 = .ok entryA ∧
    createCallCount (V1.createFolder "A" 0 [.entries [entryA], .done]).2.2
      "A" 0 = 0 ∧
    1 ≤ createCallCount (V2.createFolder "A" 0
      [.entries [], .entry entryA]).2.2.1 "A" 0 := by
  obtain ⟨h1, -⟩ := C9_createFolder_existence_precheck "A" 0 [entryA] [.done]
  obtain ⟨ha, hb, -, -⟩ := h1 entryA (by decide)
  obtain ⟨-, h2⟩ := C9_createFolder_existence_precheck "A" 0 [] [.entry entryA]
  exact ⟨ha, hb, (h2 (by decide) _ _ rfl).2⟩

/-- Every event a `take` helper emits carries the request it was given. -/
theorem takeListResp_calls (c : RCall) (sc : Script) :
    ∀ ev ∈ (takeListResp c sc).2.2, ev.1 = c := by
  match sc with
  | [] => intro ev hev; simp [takeListResp] at hev
  | .entries es :: rest => intro ev hev; simp [takeListResp] at hev; simp [hev]
  | .entry e :: rest => intro ev hev; simp [takeListResp] at hev; simp [hev]
  | .done :: rest => intro ev hev; simp [takeListResp] at hev; simp [hev]
  | .fail s b :: rest => intro ev hev; simp [takeListResp] at hev; simp [hev]

/-- If the creation pacer's trace contains a 422 outcome for the
creation request, the pacer's result is that 422 failure (the 422 is
terminal: it is never retried and nothing follows it). -/
theorem createPacer_mem_422 (name : String) (pid : Int) :
    ∀ (sc : Script) (c : Bool),
      (RCall.createCall name pid, RResp.fail (some 422) c) ∈
        (createPacer name pid sc).2.2 →
      (createPacer name pid sc).1 = .error (some 422) := by
  intro sc
  induction sc with
  | nil => intro c h; simp [createPacer] at h
  | cons r rest ih =>
    intro c h
    cases r with
    | entries es => simp [createPacer] at h
    | entry e => simp [createPacer] at h
    | done => simp [createPacer] at h
    | fail s b =>
      by_cases h422 : s = some 422
      · subst h422; simp [createPacer]
      · by_cases hsr : shouldRetry b s true = true
        · simp only [createPacer, h422, if_false, hsr, if_true] at h ⊢
          rcases List.mem_append.mp h with hl | hr
          · simp at hl
            first
            | exact absurd hl.1 h422
            | exact absurd hl.1.symm h422
          · exact ih c hr
        · simp only [createPacer, h422, if_false, hsr] at h ⊢
          simp at h
          first
          | exact absurd h.1 h422
          | exact absurd h.1.symm h422

/-- Bundled facts about the bounded reconciliation search: its trace is
only list requests, at most `fuel` of them; it sleeps at most `fuel - 1`
times when starting fresh (`fuel` otherwise) and every sleep is 500 ms;
a discovered entry is a same-named folder. -/
theorem reconSearch_props (name : String) (parent : Option Int) :
    ∀ (fuel : Nat) (first : Bool) (sc : Script),
      (V2.reconSearch name parent fuel first sc).2.2.1.length ≤ fuel ∧
      onlyListCalls (V2.reconSearch name parent fuel first sc).2.2.1 = true ∧
      (V2.reconSearch name parent fuel first sc).2.2.2.length ≤
        (if first then fuel - 1 else fuel) ∧
      (∀ d ∈ (V2.reconSearch name parent fuel first sc).2.2.2, d = 500) ∧
      (∀ e, (V2.reconSearch name parent fuel first sc).1 = some e →
        e.name = name ∧ e.type = "folder") := by
  intro fuel
  induction fuel with
  | zero =>
    intro first sc
    simp [V2.reconSearch, onlyListCalls]
  | succ n ih =>
    intro first sc
    cases sc with
    | nil =>
      obtain ⟨ihl, ihc, ihs, ihd, ihe⟩ := ih false []
      have ihs' : (V2.reconSearch name parent n false []).2.2.2.length ≤ n := by
        simpa using ihs
      refine ⟨?_, ?_, ?_, ?_, ?_⟩ <;>
        simp only [V2.reconSearch, takeListResp]
      · simp
        omega
      · simpa [onlyListCalls] using ihc
      · cases first <;> simp <;> omega
      · intro d hd
        rcases List.mem_append.mp hd with hl | hr
        · cases first <;> simp at hl
          simp [hl]
        · exact ihd d hr
      · exact ihe
    | cons r rest =>
      cases r with
      | entries es =>
        rcases hfind : es.find?
            (fun x => x.name == name && x.type == "folder") with _ | e
        · obtain ⟨ihl, ihc, ihs, ihd, ihe⟩ := ih false rest
          have ihs' : (V2.reconSearch name parent n false rest).2.2.2.length ≤ n := by
            simpa using ihs
          refine ⟨?_, ?_, ?_, ?_, ?_⟩ <;>
            simp only [V2.reconSearch, takeListResp, hfind]
          · simp
            omega
          · simpa [onlyListCalls] using ihc
          · cases first <;> simp <;> omega
          · intro d hd
            rcases List.mem_append.mp hd with hl | hr
            · cases first <;> simp at hl
              simp [hl]
            · exact ihd d hr
          · exact ihe
        · have hprops := List.find?_some hfind
          simp only [Bool.and_eq_true, beq_iff_eq] at hprops
          refine ⟨?_, ?_, ?_, ?_, ?_⟩ <;>
            simp only [V2.reconSearch, takeListResp, hfind]
          · simp
          · simp [onlyListCalls]
          · cases first <;> simp
          · intro d hd
            cases first <;> simp at hd
            simp [hd]
          · intro e2 he2
            simp at he2
            subst he2
            exact hprops
      | entry e =>
        obtain ⟨ihl, ihc, ihs, ihd, ihe⟩ := ih false rest
        have ihs' : (V2.reconSearch name parent n false rest).2.2.2.length ≤ n := by
          simpa using ihs
        refine ⟨?_, ?_, ?_, ?_, ?_⟩ <;>
          simp only [V2.reconSearch, takeListResp]
        · simp
          omega
        · simpa [onlyListCalls] using ihc
        · cases first <;> simp <;> omega
        · intro d hd
          rcases List.mem_append.mp hd with hl | hr
          · cases first <;> simp at hl
            simp [hl]
          · exact ihd d hr
        · exact ihe
      | done =>
        obtain ⟨ihl, ihc, ihs, ihd, ihe⟩ := ih false rest
        have ihs' : (V2.reconSearch name parent n false rest).2.2.2.length ≤ n := by
          simpa using ihs
        refine ⟨?_, ?_, ?_, ?_, ?_⟩ <;>
          simp only [V2.reconSearch, takeListResp]
        · simp
          omega
        · simpa [onlyListCalls] using ihc
        · cases first <;> simp <;> omega
        · intro d hd
          rcases List.mem_append.mp hd with hl | hr
          · cases first <;> simp at hl
            simp [hl]
          · exact ihd d hr
        · exact ihe
      | fail s b =>
        obtain ⟨ihl, ihc, ihs, ihd, ihe⟩ := ih false rest
        have ihs' : (V2.reconSearch name parent n false rest).2.2.2.length ≤ n := by
          simpa using ihs
        refine ⟨?_, ?_, ?_, ?_, ?_⟩ <;>
          simp only [V2.reconSearch, takeListResp]
        · simp
          omega
        · simpa [onlyListCalls] using ihc
        · cases first <;> simp <;> omega
        · intro d hd
          rcases List.mem_append.mp hd with hl | hr
          · cases first <;> simp at hl
            simp [hl]
          · exact ihd d hr
        · exact ihe


/-- Facts about the phase of the unnamed-api `createFolder` after a
missed pre-check: at most 2 sleeps, each of 500 ms, and when the trace
contains a 422 creation outcome, the result is a discovered same-named
folder or the original 422 failure (provided the pre-check trace `t1`
holds only list requests). -/
theorem createFolderPost_facts (name : String) (pid : Int) (t1 : Trace)
    (sc1 : Script) (ht1 : ∀ ev ∈ t1, ∃ pr, ev.1 = RCall.listCall pr) :
    (V2.createFolderPost name pid t1 sc1).2.2.2.length ≤ 2 ∧
    (∀ d ∈ (V2.createFolderPost name pid t1 sc1).2.2.2, d = 500) ∧
    ((∃ c, (RCall.createCall name pid, RResp.fail (some 422) c) ∈
        (V2.createFolderPost name pid t1 sc1).2.2.1) →
      (∃ e, (V2.createFolderPost name pid t1 sc1).1 = .ok e ∧
        e.name = name ∧ e.type = "folder") ∨
      (V2.createFolderPost name pid t1 sc1).1 = .error (some 422)) := by
  rcases hcr : (createPacer name pid sc1).1 with s | e
  · by_cases h422 : s = some 422
    · subst h422
      obtain ⟨hl, hc, hs, hd, he⟩ := reconSearch_props name
        (if pid = 0 then none else some pid) 3 true (createPacer name pid sc1).2.1
      rcases hrec : (V2.reconSearch name (if pid = 0 then none else some pid)
          3 true (createPacer name pid sc1).2.1).1 with _ | e2
      · have heq : V2.createFolderPost name pid t1 sc1 =
            (.error (some 422),
             (V2.reconSearch name (if pid = 0 then none else some pid)
               3 true (createPacer name pid sc1).2.1).2.1,
             t1 ++ (createPacer name pid sc1).2.2 ++
               (V2.reconSearch name (if pid = 0 then none else some pid)
                 3 true (createPacer name pid sc1).2.1).2.2.1,
             (V2.reconSearch name (if pid = 0 then none else some pid)
               3 true (createPacer name pid sc1).2.1).2.2.2) := by
          simp only [V2.createFolderPost, hcr, hrec, eq_self_iff_true, if_true]
        rw [heq]
        exact ⟨by simpa using hs, fun d hd2 => hd d hd2, fun _ => Or.inr rfl⟩
      · have heq : V2.createFolderPost name pid t1 sc1 =
            (.ok e2,
             (V2.reconSearch name (if pid = 0 then none else some pid)
               3 true (createPacer name pid sc1).2.1).2.1,
             t1 ++ (createPacer name pid sc1).2.2 ++
               (V2.reconSearch name (if pid = 0 then none else some pid)
                 3 true (createPacer name pid sc1).2.1).2.2.1,
             (V2.reconSearch name (if pid = 0 then none else some pid)
               3 true (createPacer name pid sc1).2.1).2.2.2) := by
          simp only [V2.createFolderPost, hcr, hrec, eq_self_iff_true, if_true]
        rw [heq]
        exact ⟨by simpa using hs, fun d hd2 => hd d hd2,
          fun _ => Or.inl ⟨e2, rfl, (he e2 hrec).1, (he e2 hrec).2⟩⟩
    · have heq : V2.createFolderPost name pid t1 sc1 =
          (.error s, (createPacer name pid sc1).2.1,
            t1 ++ (createPacer name pid sc1).2.2, []) := by
        simp only [V2.createFolderPost, hcr, if_neg h422]
      rw [heq]
      refine ⟨by simp, by simp, ?_⟩
      rintro ⟨c, hmem⟩
      exfalso
      have hmem2 : (RCall.createCall name pid, RResp.fail (some 422) c) ∈
          t1 ++ (createPacer name pid sc1).2.2 := hmem
      rcases List.mem_append.mp hmem2 with hl2 | hr2
      · obtain ⟨pr, hpr⟩ := ht1 _ hl2
        simp at hpr
      · have h2 := createPacer_mem_422 name pid sc1 c hr2
        rw [hcr] at h2
        injection h2 with h3
        exact h422 h3
  · have heq : V2.createFolderPost name pid t1 sc1 =
        (.ok e, (createPacer name pid sc1).2.1,
          t1 ++ (createPacer name pid sc1).2.2, []) := by
      simp only [V2.createFolderPost, hcr]
    rw [heq]
    refine ⟨by simp, by simp, ?_⟩
    rintro ⟨c, hmem⟩
    exfalso
    have hmem2 : (RCall.createCall name pid, RResp.fail (some 422) c) ∈
        t1 ++ (createPacer name pid sc1).2.2 := hmem
    rcases List.mem_append.mp hmem2 with hl2 | hr2
    · obtain ⟨pr, hpr⟩ := ht1 _ hl2
      simp at hpr
    · have h2 := createPacer_mem_422 name pid sc1 c hr2
      rw [hcr] at h2
      simp at h2

/-- C5 counterexample: in the `api.go` variant, a 422 on the creation
POST is surfaced directly — the full interaction is the one pre-check
listing followed by the failed POST, with no re-listing afterwards. -/
theorem C5_counterexample_no_reconciliation :
    V1.createFolder "sub" 5 [.entries [], .fail (some 422) false] =
      (.error (some 422), [],
        [(RCall.listCall (some 5), .entries []),
         (RCall.createCall "sub" 5, .fail (some 422) false)]) := by
  decide

/-- C5 amended: in the unnamed-api variant, a 422 on the creation POST
is terminal for the pacer (never retried); the reconciliation search
then re-lists the parent at most 3 times, sleeping a fixed 500 ms before
every attempt but the first; a discovered same-named folder is returned
as success, and otherwise the original 422 is surfaced. -/
theorem C5_reconciliation_amended :
    (∀ (name : String) (pid : Int) (c : Bool) (rest : Script),
      createPacer name pid (.fail (some 422) c :: rest) =
        (.error (some 422), rest,
          [(RCall.createCall name pid, .fail (some 422) c)])) ∧
    (∀ (name : String) (parent : Option Int) (sc : Script),
      (V2.reconSearch name parent 3 true sc).2.2.1.length ≤ 3 ∧
      onlyListCalls (V2.reconSearch name parent 3 true sc).2.2.1 = true ∧
      (V2.reconSearch name parent 3 true sc).2.2.2.length ≤ 2 ∧
      (∀ d ∈ (V2.reconSearch name parent 3 true sc).2.2.2, d = 500) ∧
      (∀ e, (V2.reconSearch name parent 3 true sc).1 = some e →
        e.name = name ∧ e.type = "folder")) ∧
    (∀ (name : String) (pid : Int) (sc : Script),
      (V2.createFolder name pid sc).2.2.2.length ≤ 2 ∧
      (∀ d ∈ (V2.createFolder name pid sc).2.2.2, d = 500) ∧
      ((∃ c, (RCall.createCall name pid, RResp.fail (some 422) c) ∈
          (V2.createFolder name pid sc).2.2.1) →
        (∃ e, (V2.createFolder name pid sc).1 = .ok e ∧ e.name = name ∧
          e.type = "folder") ∨
        (V2.createFolder name pid sc).1 = .error (some 422))) := by
  refine ⟨fun name pid c rest => rfl, ?_, ?_⟩
  · intro name parent sc
    obtain ⟨hl, hc, hs, hd, he⟩ := reconSearch_props name parent 3 true sc
    exact ⟨hl, hc, by simpa using hs, hd, he⟩
  · intro name pid sc
    cases sc with
    | nil =>
      have heq : V2.createFolder name pid [] =
          V2.createFolderPost name pid [] [] := by
        simp only [V2.createFolder, takeListResp]
      rw [heq]
      exact createFolderPost_facts name pid [] [] (by intro ev h; simp at h)
    | cons r rest =>
      cases r with
      | entries es =>
        rcases hfind : es.find? (fun x => x.name == name && x.type == "folder")
            with _ | e
        · have heq : V2.createFolder name pid (.entries es :: rest) =
              V2.createFolderPost name pid
                [(RCall.listCall (if pid = 0 then none else some pid),
                  RResp.entries es)] rest := by
            simp only [V2.createFolder, takeListResp, hfind]
          rw [heq]
          refine createFolderPost_facts name pid _ rest ?_
          intro ev h
          simp at h
          subst h
          exact ⟨_, rfl⟩
        · have heq : V2.createFolder name pid (.entries es :: rest) =
              (.ok e, rest,
               [(RCall.listCall (if pid = 0 then none else some pid),
                 RResp.entries es)], []) := by
            simp only [V2.createFolder, takeListResp, hfind]
          rw [heq]
          refine ⟨by simp, by simp, ?_⟩
          rintro ⟨c, hmem⟩
          have hmem2 : (RCall.createCall name pid, RResp.fail (some 422) c) ∈
              [(RCall.listCall (if pid = 0 then none else some pid),
                RResp.entries es)] := hmem
          simp at hmem2
      | entry e =>
        have heq : V2.createFolder name pid (.entry e :: rest) =
            V2.createFolderPost name pid
              [(RCall.listCall (if pid = 0 then none else some pid),
                RResp.entry e)] rest := by
          simp only [V2.createFolder, takeListResp]
        rw [heq]
        refine createFolderPost_facts name pid _ rest ?_
        intro ev h
        simp at h
        subst h
        exact ⟨_, rfl⟩
      | done =>
        have heq : V2.createFolder name pid (.done :: rest) =
            V2.createFolderPost name pid
              [(RCall.listCall (if pid = 0 then none else some pid),
                RResp.done)] rest := by
          simp only [V2.createFolder, takeListResp]
        rw [heq]
        refine createFolderPost_facts name pid _ rest ?_
        intro ev h
        simp at h
        subst h
        exact ⟨_, rfl⟩
      | fail s b =>
        have heq : V2.createFolder name pid (.fail s b :: rest) =
            V2.createFolderPost name pid
              [(RCall.listCall (if pid = 0 then none else some pid),
                RResp.fail s b)] rest := by
          simp only [V2.createFolder, takeListResp]
        rw [heq]
        refine createFolderPost_facts name pid _ rest ?_
        intro ev h
        simp at h
        subst h
        exact ⟨_, rfl⟩

/-- Witness for C5's amended statement: a 422 with a successful
reconciliation at a concrete script. -/
theorem C5_reconciliation_amended_witness :
    ((∃ e, (V2.createFolder "A" 0
        [.entries [], .fail (some 422) false, .entries [entryA]]).1 = .ok e ∧
        e.name = "A" ∧ e.type = "folder") ∨
      (V2.createFolder "A" 0
        [.entries [], .fail (some 422) false, .entries [entryA]]).1 =
        .error (some 422)) ∧
    (V2.createFolder "A" 0
      [.entries [], .fail (some 422) false, .entries [entryA]]).2.2.2.length
      ≤ 2 := by
  obtain ⟨-, -, h3⟩ := C5_reconciliation_amended
  obtain ⟨ha, -, hc⟩ := h3 "A" 0
    [.entries [], .fail (some 422) false, .entries [entryA]]
  exact ⟨hc ⟨false, by decide⟩, ha⟩

/-- The `sync.Once` gate guarantee: along any valid gate trace, the body
for a path executes at most once, and not at all if the path's gate had
already fired. -/
theorem gateValid_exec_bound :
    ∀ (evs : List GateEvent) (fired : List String) (p : String),
      gateValid fired evs = true →
      (fired.contains p = true → execCount p evs = 0) ∧
      execCount p evs ≤ 1 := by
  intro evs
  induction evs with
  | nil =>
    intro fired p _
    exact ⟨fun _ => rfl, by simp [execCount]⟩
  | cons ev rest ih =>
    intro fired p hv
    cases ev with
    | execBody cl q =>
      simp only [gateValid, Bool.and_eq_true, Bool.not_eq_true'] at hv
      obtain ⟨hnc, hrest⟩ := hv
      obtain ⟨ih1, ih2⟩ := ih (q :: fired) p hrest
      by_cases hqp : q = p
      · have hq : (q == p) = true := by simp [hqp]
        have hzero : execCount p rest = 0 := by
          refine ih1 ?_
          simp [hqp]
        have hcnt : execCount p (GateEvent.execBody cl q :: rest) =
            execCount p rest + 1 := by simp [execCount, hq]
        constructor
        · intro hf
          rw [hqp] at hnc
          simp at hnc
          exact absurd (by simpa using hf) hnc
        · omega
      · have hq : (q == p) = false := by simp [hqp]
        have hcnt : execCount p (GateEvent.execBody cl q :: rest) =
            execCount p rest := by simp [execCount, hq]
        constructor
        · intro hf
          rw [hcnt]
          refine ih1 ?_
          simp
          exact Or.inr (by simpa using hf)
        · rw [hcnt]
          exact ih2
    | skipBody cl q =>
      simp only [gateValid, Bool.and_eq_true] at hv
      obtain ⟨hc, hrest⟩ := hv
      obtain ⟨ih1, ih2⟩ := ih fired p hrest
      have hcnt : execCount p (GateEvent.skipBody cl q :: rest) =
          execCount p rest := by simp [execCount]
      exact ⟨fun hf => by rw [hcnt]; exact ih1 hf, by rw [hcnt]; exact ih2⟩

/-- C2 amended: in the dirCache variant, in any valid trace of the
per-path `sync.Once` gates the creation body for a path runs at most
once; each `Mkdir` call issues at most one `createFolder` invocation for
its own path; and a caller that finds the gate already fired skips the
body, returning success with no remote call and no creation.  (The
pathCache variant has no gate; see the counterexample.) -/
theorem C2_once_gate_amended :
    (∀ (evs : List GateEvent) (p : String), gateValid [] evs = true →
      execCount p evs ≤ 1) ∧
    (∀ (fuel : Nat) (f : V1.Fs) (sc : Script) (dir : String),
      (V1.Mkdir fuel f sc dir).2 ≤ 1) ∧
    (∀ (fuel : Nat) (f : V1.Fs) (sc : Script) (dir : String),
      f.mkdirDone.contains (pathJoin f.root dir) = true →
      V1.Mkdir (fuel + 1) f sc dir = (⟨.ok (), f, sc, []⟩, 0)) := by
  refine ⟨?_, ?_, ?_⟩
  · intro evs p hv
    exact (gateValid_exec_bound evs [] p hv).2
  · intro fuel f sc dir
    cases fuel with
    | zero => simp [V1.Mkdir]
    | succ n =>
      simp only [V1.Mkdir]
      repeat' split
      all_goals simp
  · intro fuel f sc dir h
    have hmem : pathJoin f.root dir ∈ f.mkdirDone := by simpa using h
    simp [V1.Mkdir, h]
    intro _ _ habs
    exact absurd hmem habs

/-- Witness for C2's amended statement at concrete inputs. -/
theorem C2_once_gate_amended_witness :
    execCount "A" [.execBody 1 "A", .skipBody 2 "A"] ≤ 1 ∧
    (V1.Mkdir 2 ⟨"", [], []⟩ mkScriptV1 "A").2 ≤ 1 ∧
    V1.Mkdir 2 gatedFs1 [] "A" = (⟨.ok (), gatedFs1, [], []⟩, 0) := by
  obtain ⟨h1, h2, h3⟩ := C2_once_gate_amended
  exact ⟨h1 _ "A" (by decide), h2 2 _ mkScriptV1 "A",
    h3 1 gatedFs1 [] "A" (by decide)⟩

/-- General pagination lemma for the first variant's `listEntries`: for
a server whose reported `current_page` echoes the requested page and
whose `last_page` is constantly `L`, the loop started at page `s ≤ L`
requests exactly pages `s..L` and returns their data concatenated in
order. -/
theorem listEntriesV1_general (server : Option Int → Nat → ListResponse)
    (pid : Option Int) (L : Nat)
    (hcur : ∀ p, 1 ≤ p → (server pid p).currentPage = p)
    (hlast : ∀ p, (server pid p).lastPage = L) :
    ∀ (fuel s : Nat), 1 ≤ s → s ≤ L → L + 1 - s ≤ fuel →
      listEntriesV1 server pid fuel s =
        some (List.range' s (L + 1 - s),
          ((List.range' s (L + 1 - s)).map
            (fun p => (server pid p).data)).flatten) := by
  intro fuel
  induction fuel with
  | zero => intro s h1 h2 h3; omega
  | succ n ih =>
    intro s h1 h2 h3
    simp only [listEntriesV1, hcur s h1, hlast]
    by_cases hLs : L ≤ s
    · rw [if_pos hLs]
      have hs1 : L + 1 - s = 1 := by omega
      rw [hs1]
      simp
    · rw [if_neg hLs]
      rw [ih (s + 1) (by omega) (by omega) (by omega)]
      have hr : List.range' s (L + 1 - s) =
          s :: List.range' (s + 1) (L + 1 - (s + 1)) := by
        have he : L + 1 - s = (L + 1 - (s + 1)) + 1 := by omega
        rw [he]
        rfl
      rw [hr]
      simp

/-- The same pagination lemma for the second variant, which compares the
local page counter against `last_page` (no condition on the reported
`current_page`). -/
theorem listEntriesV2_general (server : Option Int → Nat → ListResponse)
    (pid : Option Int) (L : Nat)
    (hlast : ∀ p, (server pid p).lastPage = L) :
    ∀ (fuel s : Nat), 1 ≤ s → s ≤ L → L + 1 - s ≤ fuel →
      listEntriesV2 server pid fuel s =
        some (List.range' s (L + 1 - s),
          ((List.range' s (L + 1 - s)).map
            (fun p => (server pid p).data)).flatten) := by
  intro fuel
  induction fuel with
  | zero => intro s h1 h2 h3; omega
  | succ n ih =>
    intro s h1 h2 h3
    simp only [listEntriesV2, hlast]
    by_cases hLs : L ≤ s
    · rw [if_pos hLs]
      have hs1 : L + 1 - s = 1 := by omega
      rw [hs1]
      simp
    · rw [if_neg hLs]
      rw [ih (s + 1) (by omega) (by omega) (by omega)]
      have hr : List.range' s (L + 1 - s) =
          s :: List.range' (s + 1) (L + 1 - (s + 1)) := by
        have he : L + 1 - s = (L + 1 - (s + 1)) + 1 := by omega
        rw [he]
        rfl
      rw [hr]
      simp

/-- C7: for every parent filter, both variants of `listEntries` request
pages starting at 1 and accumulate each page's data until the server
reports no further pages (`current page >= last page`), returning the
concatenation of pages `1..L` in request order and requesting exactly
those pages. -/
theorem C7_pagination (server : Option Int → Nat → ListResponse)
    (pid : Option Int) (L fuel : Nat)
    (hcur : ∀ p, 1 ≤ p → (server pid p).currentPage = p)
    (hlast : ∀ p, (server pid p).lastPage = L)
    (h1 : 1 ≤ L) (hfuel : L ≤ fuel) :
    listEntriesV1 server pid fuel 1 =
      some (List.range' 1 L,
        ((List.range' 1 L).map (fun p => (server pid p).data)).flatten) ∧
    listEntriesV2 server pid fuel 1 =
      some (List.range' 1 L,
        ((List.range' 1 L).map (fun p => (server pid p).data)).flatten) := by
  have e1 := listEntriesV1_general server pid L hcur hlast fuel 1 (by omega) h1
    (by omega)
  have e2 := listEntriesV2_general server pid L hlast fuel 1 (by omega) h1
    (by omega)
  simp only [Nat.add_sub_cancel] at e1 e2
  exact ⟨e1, e2⟩

/-- Witness for C7: the 3-page 50/50/7 server yields all 107 entries
with exactly the page requests 1, 2, 3, in both variants. -/
theorem C7_pagination_witness :
    listEntriesV1 server107 none 3 1 = some (List.range' 1 3, entries107) ∧
    listEntriesV2 server107 none 3 1 = some (List.range' 1 3, entries107) ∧
    entries107.length = 107 ∧ List.range' 1 3 = [1, 2, 3] := by
  obtain ⟨h1, h2⟩ := C7_pagination server107 none 3 3
    (by
      intro p _
      simp only [server107]
      split
      · rfl
      · split
        · rfl
        · rfl)
    (by
      intro p
      simp only [server107]
      split
      · rfl
      · split
        · rfl
        · rfl)
    (by norm_num) (by norm_num)
  exact ⟨h1, h2, by decide, by decide⟩

/-- A successful association-list lookup comes from a pair of the list. -/
theorem alookup_mem {α β : Type} [DecidableEq α] :
    ∀ (m : List (α × β)) (k : α) (v : β), alookup m k = some v → (k, v) ∈ m := by
  intro m
  induction m with
  | nil => intro k v h; simp [alookup] at h
  | cons kv rest ih =>
    intro k v h
    obtain ⟨k1, v1⟩ := kv
    by_cases hk : k1 = k
    · subst hk
      simp [alookup] at h
      subst h
      exact List.mem_cons_self _ _
    · simp only [alookup, if_neg hk] at h
      exact List.mem_cons_of_mem _ (ih k v h)

/-- `ainsert` preserves a pointwise property of the values when the new
value satisfies it. -/
theorem ainsert_forall {α β : Type} [DecidableEq α] (m : List (α × β)) (k : α)
    (v : β) (P : β → Prop) (h : ∀ pr ∈ m, P pr.2) (hv : P v) :
    ∀ pr ∈ ainsert m k v, P pr.2 := by
  intro pr hpr
  rcases List.mem_cons.mp hpr with h1 | h2
  · rw [h1]; exact hv
  · exact h pr (List.mem_of_mem_filter h2)

/-- `aerase` preserves a pointwise property of the values. -/
theorem aerase_forall {α β : Type} [DecidableEq α] (m : List (α × β)) (k : α)
    (P : β → Prop) (h : ∀ pr ∈ m, P pr.2) :
    ∀ pr ∈ aerase m k, P pr.2 :=
  fun pr hpr => h pr (List.mem_of_mem_filter hpr)

/-- The guarded cache write keeps every cached value a folder. -/
theorem addDirCacheEntry_inv (f : V1.Fs) (p : String) (e : FileEntry)
    (h : ∀ pr ∈ f.dirCache, pr.2.type = "folder") :
    ∀ pr ∈ (V1.addDirCacheEntry f p e).dirCache, pr.2.type = "folder" := by
  unfold V1.addDirCacheEntry
  by_cases ht : e.type ≠ "folder"
  · rw [if_pos ht]; exact h
  · rw [if_neg ht]
    exact ainsert_forall f.dirCache p e (fun v => v.type = "folder") h
      (by push_neg at ht; exact ht)

/-- Consuming one scripted response leaves a suffix of the script. -/
theorem takeListResp_suffix (c : RCall) (sc : Script) :
    (takeListResp c sc).2.1 <:+ sc := by
  cases sc with
  | nil => exact List.suffix_refl _
  | cons r rest => cases r <;> exact List.suffix_cons _ _

/-- Consuming one scripted entry response leaves a suffix of the script. -/
theorem takeEntryResp_suffix (c : RCall) (sc : Script) :
    (takeEntryResp c sc).2.1 <:+ sc := by
  cases sc with
  | nil => exact List.suffix_refl _
  | cons r rest => cases r <;> exact List.suffix_cons _ _

/-- The script-folders condition restricts to suffixes. -/
theorem scriptFoldersOk_suffix {sc1 sc : Script} (h : sc1 <:+ sc)
    (hs : scriptFoldersOk sc = true) : scriptFoldersOk sc1 = true := by
  simp only [scriptFoldersOk, List.all_eq_true] at hs ⊢
  intro r hr
  exact hs r (h.sublist.subset hr)

/-- The creation pacer leaves a suffix of the script. -/
theorem createPacer_suffix (name : String) (pid : Int) :
    ∀ sc : Script, (createPacer name pid sc).2.1 <:+ sc := by
  intro sc
  induction sc with
  | nil => exact List.suffix_refl _
  | cons r rest ih =>
    cases r with
    | entries es => exact List.suffix_cons _ _
    | entry e => exact List.suffix_cons _ _
    | done => exact List.suffix_cons _ _
    | fail s b =>
      by_cases h422 : s = some 422
      · subst h422
        exact List.suffix_cons _ _
      · by_cases hsr : shouldRetry b s true = true
        · simp only [createPacer, h422, if_false, hsr, if_true]
          exact ih.trans (List.suffix_cons _ _)
        · simp only [createPacer, h422, if_false, hsr]
          exact List.suffix_cons _ _

/-- A successful creation POST's entry was consumed from the script. -/
theorem createPacer_ok_mem (name : String) (pid : Int) :
    ∀ (sc : Script) (e : FileEntry), (createPacer name pid sc).1 = .ok e →
      RResp.entry e ∈ sc := by
  intro sc
  induction sc with
  | nil => intro e h; simp [createPacer] at h
  | cons r rest ih =>
    intro e h
    cases r with
    | entries es => simp [createPacer] at h
    | entry e2 =>
      simp only [createPacer, Except.ok.injEq] at h
      rw [h]
      exact List.mem_cons_self _ _
    | done => simp [createPacer] at h
    | fail s b =>
      by_cases h422 : s = some 422
      · subst h422; simp [createPacer] at h
      · by_cases hsr : shouldRetry b s true = true
        · simp only [createPacer, h422, if_false, hsr, if_true] at h
          exact List.mem_cons_of_mem _ (ih e h)
        · simp only [createPacer, h422, if_false, hsr] at h
          simp at h

/-- `createFolder` (first variant) leaves a suffix of the script. -/
theorem createFolderV1_suffix (name : String) (pid : Int) (sc : Script) :
    (V1.createFolder name pid sc).2.1 <:+ sc := by
  unfold V1.createFolder
  rcases hpre : (takeListResp (RCall.listCall (some pid)) sc).1 with err | entries
  · simp only [hpre]
    exact (createPacer_suffix name pid _).trans (takeListResp_suffix _ _)
  · simp only [hpre]
    rcases hfind : entries.find?
        (fun x => x.name == name && x.type == "folder") with _ | e
    · simp only [hfind]
      exact (createPacer_suffix name pid _).trans (takeListResp_suffix _ _)
    · simp only [hfind]
      exact takeListResp_suffix _ _

/-- An entry returned by the first variant's `createFolder` is a folder:
either it was discovered by the pre-check (whose scan requires the
folder type) or it is the remote's folder-creation response, a folder by
the script-folders condition. -/
theorem createFolderV1_ok (name : String) (pid : Int) (sc : Script)
    (e : FileEntry) (hs : scriptFoldersOk sc = true)
    (hok : (V1.createFolder name pid sc).1 = .ok e) : e.type = "folder" := by
  unfold V1.createFolder at hok
  rcases hpre : (takeListResp (RCall.listCall (some pid)) sc).1 with err | entries
  · simp only [hpre] at hok
    have hmem := createPacer_ok_mem name pid
      ((takeListResp (RCall.listCall (some pid)) sc).2.1) e hok
    have hsub := scriptFoldersOk_suffix
      (takeListResp_suffix (RCall.listCall (some pid)) sc) hs
    simp only [scriptFoldersOk, List.all_eq_true] at hsub
    simpa using hsub _ hmem
  · simp only [hpre] at hok
    rcases hfind : entries.find?
        (fun x => x.name == name && x.type == "folder") with _ | e2
    · simp only [hfind] at hok
      have hmem := createPacer_ok_mem name pid
        ((takeListResp (RCall.listCall (some pid)) sc).2.1) e hok
      have hsub := scriptFoldersOk_suffix
        (takeListResp_suffix (RCall.listCall (some pid)) sc) hs
      simp only [scriptFoldersOk, List.all_eq_true] at hsub
      simpa using hsub _ hmem
    · simp only [hfind] at hok
      have hp := List.find?_some hfind
      simp only [Bool.and_eq_true, beq_iff_eq] at hp
      simp only [Except.ok.injEq] at hok
      rw [← hok]
      exact hp.2

/-- The walk of the first variant's `findEntry` keeps the cache
folders-only and leaves a suffix of the script. -/
theorem findWalkV1_good (remotePath : String) (allParts : List String) :
    ∀ (parts : List String) (i : Nat) (cid : Int) (f : V1.Fs) (sc : Script)
      (tr : Trace),
      ((∀ pr ∈ f.dirCache, pr.2.type = "folder") →
        ∀ pr ∈ (V1.findWalk remotePath allParts parts i cid f sc tr).state.dirCache,
          pr.2.type = "folder") ∧
      (V1.findWalk remotePath allParts parts i cid f sc tr).script <:+ sc := by
  intro parts
  induction parts with
  | nil =>
    intro i cid f sc tr
    exact ⟨fun h => h, List.suffix_refl _⟩
  | cons part rest ih =>
    intro i cid f sc tr
    simp only [V1.findWalk]
    rcases hc : alookup f.dirCache
        (String.intercalate "/" (allParts.take (i + 1))) with _ | cached
    · simp only [hc]
      cases sc with
      | nil =>
        simp only [takeListResp]
        exact ⟨fun h => h, List.suffix_refl _⟩
      | cons r rest2 =>
        cases r with
        | entries es =>
          rcases hfind : es.find? (fun x => x.name == part) with _ | e
          · simp only [takeListResp, hfind]
            exact ⟨fun h => h, List.suffix_cons _ _⟩
          · by_cases hcp :
              String.intercalate "/" (allParts.take (i + 1)) = remotePath
            · simp only [takeListResp, hfind, if_pos hcp]
              exact ⟨fun h => addDirCacheEntry_inv f _ e h, List.suffix_cons _ _⟩
            · simp only [takeListResp, hfind, if_neg hcp]
              obtain ⟨ih1, ih2⟩ := ih (i + 1) e.id
                (V1.addDirCacheEntry f
                  (String.intercalate "/" (allParts.take (i + 1))) e) rest2
                (tr ++ [(RCall.listCall (if i = 0 then none else some cid),
                  RResp.entries es)])
              exact ⟨fun h => ih1 (addDirCacheEntry_inv f _ e h),
                ih2.trans (List.suffix_cons _ _)⟩
        | entry e2 =>
          simp only [takeListResp]
          exact ⟨fun h => h, List.suffix_cons _ _⟩
        | done =>
          simp only [takeListResp]
          exact ⟨fun h => h, List.suffix_cons _ _⟩
        | fail s b =>
          simp only [takeListResp]
          exact ⟨fun h => h, List.suffix_cons _ _⟩
    · simp only [hc]
      exact ih (i + 1) cached.id f sc tr

/-- `findEntry` (first variant) keeps the cache folders-only and leaves
a suffix of the script. -/
theorem findEntryV1_good (f : V1.Fs) (sc : Script) (p : String) :
    ((∀ pr ∈ f.dirCache, pr.2.type = "folder") →
      ∀ pr ∈ (V1.findEntry f sc p).state.dirCache, pr.2.type = "folder") ∧
    (V1.findEntry f sc p).script <:+ sc := by
  unfold V1.findEntry
  by_cases h0 : goTrimSlash p = ""
  · simp only [h0]
    exact ⟨fun h => h, List.suffix_refl _⟩
  · simp only [h0]
    rcases hc : alookup f.dirCache (goTrimSlash p) with _ | e
    · simp only [hc]
      exact findWalkV1_good (goTrimSlash p) (goSplit (goTrimSlash p) '/')
        (goSplit (goTrimSlash p) '/') 0 0 f sc []
    · simp only [hc]
      exact ⟨fun h => h, List.suffix_refl _⟩

/-- The caching fold of `List` keeps the cache folders-only. -/
theorem foldlAddDir_inv (dir : String) :
    ∀ (l : List FileEntry) (acc : V1.Fs),
      (∀ pr ∈ acc.dirCache, pr.2.type = "folder") →
      ∀ pr ∈ (l.foldl (fun acc2 entry =>
          if entry.type == "folder" then
            V1.addDirCacheEntry acc2 (pathJoin acc2.root (pathJoin dir entry.name))
              entry
          else acc2) acc).dirCache, pr.2.type = "folder" := by
  intro l
  induction l with
  | nil => intro acc h; exact h
  | cons e rest ih =>
    intro acc h
    simp only [List.foldl_cons]
    by_cases ht : (e.type == "folder") = true
    · rw [if_pos ht]
      exact ih _ (addDirCacheEntry_inv acc _ e h)
    · rw [if_neg ht]
      exact ih _ h

/-- `List` (first variant) keeps the cache folders-only. -/
theorem ListDirV1_inv (f : V1.Fs) (sc : Script) (dir : String)
    (h : ∀ pr ∈ f.dirCache, pr.2.type = "folder") :
    ∀ pr ∈ (V1.ListDir f sc dir).state.dirCache, pr.2.type = "folder" := by
  obtain ⟨hfe1, -⟩ := findEntryV1_good f sc (pathJoin f.root dir)
  simp only [V1.ListDir]
  by_cases hne : pathJoin f.root dir = ""
  · rw [if_neg (by simp [hne])]
    rcases htake : takeListResp (RCall.listCall none) sc with ⟨res, sc2, t2⟩
    cases res with
    | error e => simp only [htake]; exact h
    | ok fileEntries =>
      simp only [htake]
      exact foldlAddDir_inv dir fileEntries f h
  · rw [if_pos hne]
    rcases hres : (V1.findEntry f sc (pathJoin f.root dir)).result with e | entry
    · simp only [hres]
      exact hfe1 h
    · simp only [hres]
      by_cases hty : entry.type ≠ "folder"
      · rw [if_pos hty]
        exact hfe1 h
      · rw [if_neg hty]
        rcases htake : takeListResp (RCall.listCall (some entry.id))
            (V1.findEntry f sc (pathJoin f.root dir)).script with ⟨res, sc2, t2⟩
        cases res with
        | error e2 => simp only [htake]; exact hfe1 h
        | ok fileEntries =>
          simp only [htake]
          exact foldlAddDir_inv dir fileEntries _ (hfe1 h)

/-- `Rmdir` (first variant) keeps the cache folders-only. -/
theorem RmdirV1_inv (f : V1.Fs) (sc : Script) (dir : String)
    (h : ∀ pr ∈ f.dirCache, pr.2.type = "folder") :
    ∀ pr ∈ (V1.Rmdir f sc dir).state.dirCache, pr.2.type = "folder" := by
  obtain ⟨hfe1, -⟩ := findEntryV1_good f sc (pathJoin f.root dir)
  simp only [V1.Rmdir]
  rcases hres : (V1.findEntry f sc (pathJoin f.root dir)).result with e | entry
  · simp only [hres]
    exact hfe1 h
  · simp only [hres]
    by_cases hty : entry.type ≠ "folder"
    · rw [if_pos hty]
      exact hfe1 h
    · rw [if_neg hty]
      rcases htake : takeListResp (RCall.listCall (some entry.id))
          (V1.findEntry f sc (pathJoin f.root dir)).script with ⟨res, sc2, t2⟩
      cases res with
      | error e2 => simp only [htake]; exact hfe1 h
      | ok entries =>
        simp only [htake]
        by_cases hlen : 0 < entries.length
        · rw [if_pos hlen]
          exact hfe1 h
        · rw [if_neg hlen]
          rcases htake2 : takeDoneResp (RCall.deleteCall [entry.id] true) sc2
              with ⟨res2, sc3, t3⟩
          cases res2 with
          | error e3 => simp only [htake2]; exact hfe1 h
          | ok u =>
            simp only [htake2]
            exact aerase_forall
              (V1.findEntry f sc (pathJoin f.root dir)).state.dirCache
              (pathJoin f.root dir) (fun v => v.type = "folder") (hfe1 h)

/-- `Mkdir` (first variant) keeps the cache folders-only — the
`createFolder` result inserted directly into the cache is a folder by
`createFolderV1_ok` — and leaves a suffix of the script. -/
theorem MkdirV1_good :
    ∀ (fuel : Nat) (f : V1.Fs) (sc : Script) (dir : String),
      ((∀ pr ∈ f.dirCache, pr.2.type = "folder") → scriptFoldersOk sc = true →
        ∀ pr ∈ (V1.Mkdir fuel f sc dir).1.state.dirCache,
          pr.2.type = "folder") ∧
      (V1.Mkdir fuel f sc dir).1.script <:+ sc := by
  intro fuel
  induction fuel with
  | zero =>
    intro f sc dir
    exact ⟨fun h _ => h, List.suffix_refl _⟩
  | succ n ih =>
    intro f sc dir
    simp only [V1.Mkdir]
    by_cases h1 : pathJoin f.root dir = "" ∨ pathJoin f.root dir = "."
    · rw [if_pos h1]
      exact ⟨fun h _ => h, List.suffix_refl _⟩
    · rw [if_neg h1]
      by_cases h2 : f.mkdirDone.contains (pathJoin f.root dir) = true
      · rw [if_pos h2]
        exact ⟨fun h _ => h, List.suffix_refl _⟩
      · rw [if_neg h2]
        set dp := pathJoin f.root dir with hdp
        set f0 : V1.Fs := { f with mkdirDone := dp :: f.mkdirDone } with hf0
        set fe := V1.findEntry f0 sc dp with hfe
        obtain ⟨gfe1, gfe2⟩ := findEntryV1_good f0 sc dp
        rcases hres : fe.result with e | vfe
        · -- resolution failed
          simp only [hres]
          by_cases hnf : e ≠ FsError.notFound
          · rw [if_pos hnf]
            exact ⟨fun h hs => gfe1 h, gfe2⟩
          · rw [if_neg hnf]
            by_cases hpp : pathDir dp ≠ "" ∧ pathDir dp ≠ "."
            · rw [if_pos hpp]
              set rm := V1.Mkdir n fe.state fe.script
                (goTrimPfx (pathDir dp) (fe.state.root ++ "/")) with hrm0
              obtain ⟨ihm1, ihm2⟩ := ih fe.state fe.script
                (goTrimPfx (pathDir dp) (fe.state.root ++ "/"))
              rcases hrm : rm.1.result with erm | urm
              · simp only [hrm]
                exact ⟨fun h hs => ihm1 (gfe1 h) (scriptFoldersOk_suffix gfe2 hs),
                  ihm2.trans gfe2⟩
              · simp only [hrm]
                set pe := V1.findEntry rm.1.state rm.1.script (pathDir dp)
                  with hpe0
                obtain ⟨gpe1, gpe2⟩ := findEntryV1_good rm.1.state rm.1.script
                  (pathDir dp)
                have invchain : (∀ pr ∈ f.dirCache, pr.2.type = "folder") →
                    scriptFoldersOk sc = true →
                    ∀ pr ∈ pe.state.dirCache, pr.2.type = "folder" :=
                  fun h hs =>
                    gpe1 (ihm1 (gfe1 h) (scriptFoldersOk_suffix gfe2 hs))
                have sufchain : pe.script <:+ sc :=
                  gpe2.trans (ihm2.trans gfe2)
                rcases hpe : pe.result with epe | vpe
                · simp only [hpe]
                  exact ⟨fun h hs => invchain h hs, sufchain⟩
                · simp only [hpe]
                  rcases hcf : (V1.createFolder (pathBase dp) vpe.id pe.script).1
                      with ecf | vcf
                  · simp only [hcf]
                    obtain ⟨g21, g22⟩ := findEntryV1_good pe.state
                      (V1.createFolder (pathBase dp) vpe.id pe.script).2.1 dp
                    rcases hf2 : (V1.findEntry pe.state
                        (V1.createFolder (pathBase dp) vpe.id pe.script).2.1
                        dp).result with e3 | v3
                    · simp only [hf2]
                      exact ⟨fun h hs => g21 (invchain h hs),
                        g22.trans ((createFolderV1_suffix _ _ _).trans sufchain)⟩
                    · simp only [hf2]
                      exact ⟨fun h hs =>
                          addDirCacheEntry_inv _ dp v3 (g21 (invchain h hs)),
                        g22.trans ((createFolderV1_suffix _ _ _).trans sufchain)⟩
                  · simp only [hcf]
                    refine ⟨?_, (createFolderV1_suffix _ _ _).trans sufchain⟩
                    intro h hs
                    have hty : vcf.type = "folder" :=
                      createFolderV1_ok (pathBase dp) vpe.id pe.script vcf
                        (scriptFoldersOk_suffix sufchain hs) hcf
                    exact ainsert_forall pe.state.dirCache dp vcf
                      (fun v => v.type = "folder") (invchain h hs) hty
            · rw [if_neg hpp]
              rcases hcf : (V1.createFolder (pathBase dp) 0 fe.script).1
                  with ecf | vcf
              · simp only [hcf]
                obtain ⟨g21, g22⟩ := findEntryV1_good fe.state
                  (V1.createFolder (pathBase dp) 0 fe.script).2.1 dp
                rcases hf2 : (V1.findEntry fe.state
                    (V1.createFolder (pathBase dp) 0 fe.script).2.1
                    dp).result with e3 | v3
                · simp only [hf2]
                  exact ⟨fun h hs => g21 (gfe1 h),
                    g22.trans ((createFolderV1_suffix _ _ _).trans gfe2)⟩
                · simp only [hf2]
                  exact ⟨fun h hs => addDirCacheEntry_inv _ dp v3 (g21 (gfe1 h)),
                    g22.trans ((createFolderV1_suffix _ _ _).trans gfe2)⟩
              · simp only [hcf]
                refine ⟨?_, (createFolderV1_suffix _ _ _).trans gfe2⟩
                intro h hs
                have hty : vcf.type = "folder" :=
                  createFolderV1_ok (pathBase dp) 0 fe.script vcf
                    (scriptFoldersOk_suffix gfe2 hs) hcf
                exact ainsert_forall fe.state.dirCache dp vcf
                  (fun v => v.type = "folder") (gfe1 h) hty
        · -- the path already resolves
          simp only [hres]
          exact ⟨fun h hs => gfe1 h, gfe2⟩

/-- C10: in the dirCache variant, every state reachable by the
operations that write the cache (`findEntry`, `List`, `Mkdir`, `Rmdir`;
the moves and `Purge` touch the cache only through their `findEntry`
sub-calls) maps paths only to folder entries, so file paths always miss
the cache and are re-resolved by the walk. -/
theorem C10_dirCache_folders_only :
    ∀ f : V1.Fs, ReachV1 f →
      ∀ (p : String) (e : FileEntry), alookup f.dirCache p = some e →
        e.type = "folder" := by
  have key : ∀ f : V1.Fs, ReachV1 f → ∀ pr ∈ f.dirCache, pr.2.type = "folder" := by
    intro f hr
    induction hr with
    | init root => intro pr hpr; simp at hpr
    | stepFind f sc p hr ih => exact (findEntryV1_good f sc p).1 ih
    | stepList f sc dir hr ih => exact ListDirV1_inv f sc dir ih
    | stepMkdir fuel f sc dir hr hok ih =>
      exact (MkdirV1_good fuel f sc dir).1 ih hok
    | stepRmdir f sc dir hr ih => exact RmdirV1_inv f sc dir ih
  intro f hr p e hl
  exact key f hr (p, e) (alookup_mem f.dirCache p e hl)

/-- Witness for C10: after a concrete `Mkdir` run from a fresh session,
the cached entry for `A` is a folder. -/
theorem C10_dirCache_folders_only_witness : entryA.type = "folder" :=
  C10_dirCache_folders_only
    (V1.Mkdir 2 ⟨"", [], []⟩ [.entries [], .entries [], .entry entryA]
      "A").1.state
    (ReachV1.stepMkdir 2 ⟨"", [], []⟩
      [.entries [], .entries [], .entry entryA] "A" (ReachV1.init "")
      (by decide))
    "A" entryA (by decide)
